import Mathlib

/-!
Verification of the JSON Schema Registry codec
(`src/confluent_kafka/schema_registry/json_schema.py`).

Shallow embedding conventions:
* Python byte strings and text strings on the wire are `List Nat`
  (byte values / Unicode code points).  The serializer always produces
  ASCII JSON text (the stdlib encoder escapes everything outside the
  printable ASCII range), so the JSON text written into the frame is the
  code-point list itself.
* Python `None` is `JsonValue.null` when it appears as a JSON document,
  and `Option.none` when a whole message/payload is absent (Kafka null).
* Exceptions are modelled with `Except`; the distinct `raise` sites of
  the source are distinguished by constructors of `PyErr`.
* The registry client and the jsonschema validator are external
  collaborators (spec sections 1 and 6); they are modelled as records of
  functions passed in, exactly as the source receives the client object
  at construction and calls `jsonschema.validate`.
-/

/-- A Python object that is representable as a JSON document: the values
`json.loads` can return and `json.dump` can serialize.  Strings are lists
of Unicode code points.  Floating point numbers are outside the model
(no claim mentions them); JSON numbers are integers here. -/
inductive JsonValue where
  | null : JsonValue
  | bool (b : Bool) : JsonValue
  | int (n : Int) : JsonValue
  | str (s : List Nat) : JsonValue
  | arr (elems : List JsonValue) : JsonValue
  | obj (members : List (List Nat × JsonValue)) : JsonValue

/-- Code points of a Lean string literal, used to write ASCII byte
sequences readably. -/
def ascii (s : String) : List Nat := s.data.map Char.toNat

/-- Lowercase hexadecimal digit character for a value below 16,
as produced by the `'\u%04x'` formatting of the stdlib JSON encoder. -/
def hexDig (d : Nat) : Nat := if d < 10 then 0x30 + d else 0x57 + d

/-- Four lowercase hex digit characters of a value below 0x10000. -/
def hex4 (n : Nat) : List Nat :=
  [hexDig (n / 4096 % 16), hexDig (n / 256 % 16), hexDig (n / 16 % 16), hexDig (n % 16)]

/-- Escaping of one string character by the stdlib JSON encoder with
`ensure_ascii = True` (the default used by the source's `json.dump`
call): printable ASCII other than quote and backslash is kept, the
two-character escapes of the encoder's escape table are used for the
classic control characters, every other code point below 0x10000 becomes
a `\uXXXX` escape, and astral code points become a surrogate pair of
`\uXXXX` escapes. -/
def escChar (c : Nat) : List Nat :=
  if c = 0x22 then [0x5c, 0x22]          -- \"
  else if c = 0x5c then [0x5c, 0x5c]     -- \\
  else if c = 0x08 then [0x5c, 0x62]     -- \b
  else if c = 0x09 then [0x5c, 0x74]     -- \t
  else if c = 0x0a then [0x5c, 0x6e]     -- \n
  else if c = 0x0c then [0x5c, 0x66]     -- \f
  else if c = 0x0d then [0x5c, 0x72]     -- \r
  else if 0x20 ≤ c ∧ c ≤ 0x7e then [c]
  else if c < 0x10000 then 0x5c :: 0x75 :: hex4 c
  else
    0x5c :: 0x75 :: hex4 (0xd800 + (c - 0x10000) / 0x400) ++
      (0x5c :: 0x75 :: hex4 (0xdc00 + (c - 0x10000) % 0x400))

/-- Escaped body of a JSON string literal. -/
def escList : List Nat → List Nat
  | [] => []
  | c :: cs => escChar c ++ escList cs

/-- A JSON string literal: quote, escaped body, quote. -/
def dumpString (s : List Nat) : List Nat := 0x22 :: escList s ++ [0x22]

/-- Decimal digit characters of a natural number, most significant
first, as printed by Python's integer repr; the fuel argument bounds the
recursion depth and any fuel above the number itself is sufficient. -/
def natReprAux : Nat → Nat → List Nat
  | 0, _ => []
  | fuel + 1, n =>
    if n < 10 then [0x30 + n] else natReprAux fuel (n / 10) ++ [0x30 + n % 10]

/-- Decimal representation of a natural number. -/
def natRepr (n : Nat) : List Nat := natReprAux (n + 1) n

/-- Decimal representation of an integer, with a leading minus sign for
negative values, as serialized by the stdlib JSON encoder. -/
def intRepr (i : Int) : List Nat :=
  if i < 0 then 0x2d :: natRepr i.natAbs else natRepr i.toNat

mutual
/-- JSON text produced by `json.dump` with its default arguments as in
the source's framing step (`ensure_ascii = True`, separators
`", "` and `": "`, no indent).  The third positional argument of the
source's `json.dump(value, fo, value)` call is the Python 2 `skipkeys`
parameter, which never affects the output here because all object keys
of `JsonValue` are strings. -/
def dumpJson : JsonValue → List Nat
  | .null => ascii "null"
  | .bool true => ascii "true"
  | .bool false => ascii "false"
  | .int i => intRepr i
  | .str s => dumpString s
  | .arr elems => 0x5b :: dumpElems elems ++ [0x5d]          -- [ ... ]
  | .obj members => 0x7b :: dumpMembers members ++ [0x7d]    -- { ... }

/-- Comma-separated array elements. -/
def dumpElems : List JsonValue → List Nat
  | [] => []
  | v :: vs => dumpJson v ++ dumpElemsTail vs

/-- Remaining array elements, each preceded by the item separator. -/
def dumpElemsTail : List JsonValue → List Nat
  | [] => []
  | v :: vs => ascii ", " ++ dumpJson v ++ dumpElemsTail vs

/-- Comma-separated object members. -/
def dumpMembers : List (List Nat × JsonValue) → List Nat
  | [] => []
  | kv :: kvs => dumpString kv.1 ++ ascii ": " ++ dumpJson kv.2 ++ dumpMembersTail kvs

/-- Remaining object members, each preceded by the item separator. -/
def dumpMembersTail : List (List Nat × JsonValue) → List Nat
  | [] => []
  | kv :: kvs =>
      ascii ", " ++ dumpString kv.1 ++ ascii ": " ++ dumpJson kv.2 ++ dumpMembersTail kvs
end

/-- A list of strings with no repeated entry, matching the key
uniqueness of a Python dict. -/
def distinctKeys : List (List Nat) → Bool
  | [] => true
  | k :: ks => !(ks.contains k) && distinctKeys ks

/-- A well-formed string character: a Unicode code point that is not a
surrogate.  Python strings obtained from decoded JSON satisfy this. -/
def wfChar (c : Nat) : Bool := c < 0x110000 && !(0xd800 ≤ c && c < 0xe000)

mutual
/-- Well-formed JSON document: string contents are genuine code points
and object keys are distinct (a Python dict cannot hold duplicates). -/
def wfJson : JsonValue → Bool
  | .null => true
  | .bool _ => true
  | .int _ => true
  | .str s => s.all wfChar
  | .arr elems => wfElems elems
  | .obj members => distinctKeys (members.map Prod.fst) && wfMembers members

/-- Well-formedness of every element of an array. -/
def wfElems : List JsonValue → Bool
  | [] => true
  | v :: vs => wfJson v && wfElems vs

/-- Well-formedness of every member of an object. -/
def wfMembers : List (List Nat × JsonValue) → Bool
  | [] => true
  | kv :: kvs => kv.1.all wfChar && wfJson kv.2 && wfMembers kvs
end

/-- JSON whitespace characters skipped by the decoder
(space, tab, newline, carriage return). -/
def isWs (c : Nat) : Bool := c = 0x20 || c = 0x09 || c = 0x0a || c = 0x0d

/-- Drop leading JSON whitespace. -/
def skipWs : List Nat → List Nat
  | [] => []
  | c :: r => if isWs c then skipWs r else c :: r

/-- Strip an expected literal from the front of the input, failing when
the input does not start with it. -/
def takeLit : List Nat → List Nat → Option (List Nat)
  | [], s => some s
  | _ :: _, [] => none
  | p :: ps, c :: s => if c = p then takeLit ps s else none

/-- Value of a hexadecimal digit character (both letter cases), as
accepted in a `\uXXXX` escape. -/
def hexVal (c : Nat) : Option Nat :=
  if 0x30 ≤ c ∧ c ≤ 0x39 then some (c - 0x30)
  else if 0x61 ≤ c ∧ c ≤ 0x66 then some (c - 0x57)
  else if 0x41 ≤ c ∧ c ≤ 0x46 then some (c - 0x37)
  else none

/-- Value of four hexadecimal digit characters. -/
def hex4Val (h1 h2 h3 h4 : Nat) : Option Nat := do
  let a ← hexVal h1
  let b ← hexVal h2
  let c ← hexVal h3
  let d ← hexVal h4
  pure (a * 4096 + b * 256 + c * 16 + d)

/-- Replacement character of a two-character JSON escape sequence. -/
def unescape (c : Nat) : Option Nat :=
  if c = 0x22 then some 0x22
  else if c = 0x5c then some 0x5c
  else if c = 0x2f then some 0x2f
  else if c = 0x62 then some 0x08
  else if c = 0x66 then some 0x0c
  else if c = 0x6e then some 0x0a
  else if c = 0x72 then some 0x0d
  else if c = 0x74 then some 0x09
  else none

/-- Value of a decimal digit character. -/
def digitVal (c : Nat) : Option Nat :=
  if 0x30 ≤ c ∧ c ≤ 0x39 then some (c - 0x30) else none

/-- Outcome of reading one lexical unit of a JSON string body: either
the closing quote or one decoded character. -/
inductive StrTok where
  | close (rest : List Nat) : StrTok
  | char (c : Nat) (rest : List Nat) : StrTok

/-- Read one lexical unit at the front of a JSON string body: the
closing quote, a raw character, a two-character escape, a `\uXXXX`
escape, or a surrogate pair of `\uXXXX` escapes recombined into one
astral code point, as the stdlib decoder does. -/
def readStrTok : List Nat → Option StrTok
  | [] => none
  | c :: r =>
    if c = 0x22 then some (.close r)
    else if c = 0x5c then
      match r with
      | [] => none
      | e :: r2 =>
        if e = 0x75 then
          match r2 with
          | h1 :: h2 :: h3 :: h4 :: r3 =>
            match hex4Val h1 h2 h3 h4 with
            | none => none
            | some n =>
              if 0xd800 ≤ n ∧ n ≤ 0xdbff then
                match r3 with
                | a :: b :: g1 :: g2 :: g3 :: g4 :: r4 =>
                  if a = 0x5c ∧ b = 0x75 then
                    match hex4Val g1 g2 g3 g4 with
                    | none => none
                    | some m =>
                      if 0xdc00 ≤ m ∧ m ≤ 0xdfff then
                        some (.char (0x10000 + (n - 0xd800) * 0x400 + (m - 0xdc00)) r4)
                      else none
                  else none
                | _ => none
              else some (.char n r3)
          | _ => none
        else (unescape e).map (fun u => .char u r2)
    else some (.char c r)

/-- Body of a JSON string literal after the opening quote, up to and
including the closing quote; returns the decoded code points and the
remaining input.  The fuel argument bounds the loop; one unit is spent
per decoded character, so any fuel above the input length is
sufficient. -/
def parseStringBody : Nat → List Nat → Option (List Nat × List Nat)
  | 0, _ => none
  | fuel + 1, s =>
    match readStrTok s with
    | none => none
    | some (.close r) => some ([], r)
    | some (.char c r) => (parseStringBody fuel r).map (fun p => (c :: p.1, p.2))

/-- Greedily accumulate decimal digits onto an accumulator, stopping at
the first non-digit. -/
def parseDigitsAux (acc : Nat) : List Nat → Nat × List Nat
  | [] => (acc, [])
  | c :: r =>
    match digitVal c with
    | some d => parseDigitsAux (acc * 10 + d) r
    | none => (acc, c :: r)

/-- An unsigned JSON integer: at least one digit, not followed by a
fraction or exponent marker (floating point numbers are outside the
model; the serializer under verification never emits them). -/
def parsePosNum : List Nat → Option (Nat × List Nat)
  | [] => none
  | c :: r =>
    match digitVal c with
    | none => none
    | some d =>
      let p := parseDigitsAux d r
      match p.2 with
      | [] => some p
      | c2 :: _ => if c2 = 0x2e ∨ c2 = 0x65 ∨ c2 = 0x45 then none else some p

/-- A JSON integer with optional leading minus sign. -/
def parseNum : List Nat → Option (Int × List Nat)
  | [] => none
  | c :: r =>
    if c = 0x2d then (parsePosNum r).map (fun p => (-(p.1 : Int), p.2))
    else (parsePosNum (c :: r)).map (fun p => ((p.1 : Int), p.2))

mutual
/-- One JSON value from the front of the input, modelling the stdlib
decoder used by `json.loads`: skip whitespace, then dispatch on the
first character.  The fuel argument bounds nesting recursion; any fuel
above the input length is sufficient. -/
def parseValue : Nat → List Nat → Option (JsonValue × List Nat)
  | 0, _ => none
  | fuel + 1, s =>
    match skipWs s with
    | [] => none
    | c :: r =>
      if c = 0x6e then (takeLit (ascii "ull") r).map (fun r2 => (.null, r2))
      else if c = 0x74 then (takeLit (ascii "rue") r).map (fun r2 => (.bool true, r2))
      else if c = 0x66 then (takeLit (ascii "alse") r).map (fun r2 => (.bool false, r2))
      else if c = 0x22 then (parseStringBody fuel r).map (fun p => (.str p.1, p.2))
      else if c = 0x5b then
        (parseElems fuel (skipWs r)).map (fun p => (.arr p.1, p.2))
      else if c = 0x7b then
        (parseMembers fuel (skipWs r)).map (fun p => (.obj p.1, p.2))
      else (parseNum (c :: r)).map (fun p => (.int p.1, p.2))

/-- Array elements after the opening bracket (whitespace already
skipped), up to and including the closing bracket. -/
def parseElems : Nat → List Nat → Option (List JsonValue × List Nat)
  | 0, _ => none
  | fuel + 1, s =>
    match s with
    | [] => none
    | c :: r =>
      if c = 0x5d then some ([], r)
      else do
        let (v, r1) ← parseValue fuel (c :: r)
        let (vs, r2) ← parseElemsTail fuel (skipWs r1)
        pure (v :: vs, r2)

/-- Remaining array elements: either the closing bracket or a comma
followed by the next element. -/
def parseElemsTail : Nat → List Nat → Option (List JsonValue × List Nat)
  | 0, _ => none
  | fuel + 1, s =>
    match s with
    | [] => none
    | c :: r =>
      if c = 0x5d then some ([], r)
      else if c = 0x2c then do
        let (v, r1) ← parseValue fuel r
        let (vs, r2) ← parseElemsTail fuel (skipWs r1)
        pure (v :: vs, r2)
      else none

/-- Object members after the opening brace (whitespace already
skipped), up to and including the closing brace. -/
def parseMembers : Nat → List Nat → Option (List (List Nat × JsonValue) × List Nat)
  | 0, _ => none
  | fuel + 1, s =>
    match s with
    | [] => none
    | c :: r =>
      if c = 0x7d then some ([], r)
      else if c = 0x22 then do
        let (k, r1) ← parseStringBody fuel r
        match skipWs r1 with
        | [] => none
        | c2 :: r2 =>
          if c2 = 0x3a then do
            let (v, r3) ← parseValue fuel r2
            let (kvs, r4) ← parseMembersTail fuel (skipWs r3)
            pure ((k, v) :: kvs, r4)
          else none
      else none

/-- Remaining object members: either the closing brace or a comma
followed by the next member. -/
def parseMembersTail : Nat → List Nat → Option (List (List Nat × JsonValue) × List Nat)
  | 0, _ => none
  | fuel + 1, s =>
    match s with
    | [] => none
    | c :: r =>
      if c = 0x7d then some ([], r)
      else if c = 0x2c then
        match skipWs r with
        | [] => none
        | c1 :: r1 =>
          if c1 = 0x22 then do
            let (k, r2) ← parseStringBody fuel r1
            match skipWs r2 with
            | [] => none
            | c2 :: r3 =>
              if c2 = 0x3a then do
                let (v, r4) ← parseValue fuel r3
                let (kvs, r5) ← parseMembersTail fuel (skipWs r4)
                pure ((k, v) :: kvs, r5)
              else none
          else none
      else none
end

/-- The whole-document parse of `json.loads`: one value, then only
whitespace may remain (anything further is the decoder's extra-data
error). -/
def jsonLoads (s : List Nat) : Option JsonValue :=
  match parseValue (s.length + 1) s with
  | some (v, rest) => if skipWs rest = [] then some v else none
  | none => none

/-! ### The Schema Registry JSON codec -/

/-- Modelled from the spec: the fixed leading byte of the wire format.
`_MAGIC_BYTE` is imported from `confluent_kafka.schema_registry`, which
is not among the sources under verification; spec section 6 fixes its
value to 0x00. -/
def _MAGIC_BYTE : Nat := 0

/-- Modelled from the spec: the per-call serialization metadata (spec
section 3) — the stream/topic name and the message-role field ("key" or
"value").  The `SerializationContext` class itself is not among the
sources under verification. -/
structure SerializationContext where
  topic : String
  field : String

/-- Modelled from the spec: the default subject name strategy
(`topic_subject_name_strategy`, imported by the source but not among
the sources under verification).  Spec section 4.3: the topic-based
output is `{stream name}-{message role}`; the record name argument is
ignored. -/
def topic_subject_name_strategy (ctx : SerializationContext)
    (_recordName : JsonValue) : String :=
  ctx.topic ++ "-" ++ ctx.field

/-- The schema value built at construction:
`Schema(schema_str, schema_type="JSON")`. -/
structure Schema where
  schema_str : List Nat
  schema_type : String

/-- The result of `lookup_schema`; only its `schema_id` field is read
by the serializer. -/
structure RegisteredSchema where
  schema_id : Nat

/-- The external Schema Registry client (collaborator interface, spec
sections 2 and 6): deterministic functions standing for the two
network calls the serializer can make. -/
structure SchemaRegistryClient where
  register_schema : String → Schema → Nat
  lookup_schema : String → Schema → RegisteredSchema

/-- The external JSON Schema validation engine (collaborator interface,
spec section 6): `validate(instance, schema)` either succeeds or raises
a `jsonschema.ValidationError` carrying a message. -/
structure Validator where
  validate : JsonValue → JsonValue → Except String Unit

/-- Messages of the `SerializationError`s raised by the codec, one
constructor per raise site of the source. -/
inductive SerMsg where
  | tooSmall (value : List Nat) : SerMsg
  | badMagicByte : SerMsg
  | validationMessage (m : String) : SerMsg
deriving DecidableEq

/-- Messages of the `ValueError`s raised at construction time, one
constructor per raise site, plus the `json.loads` failure on input that
is not valid JSON (`JSONDecodeError` is a `ValueError`). -/
inductive InitMsg where
  | toDictNotCallable : InitMsg
  | fromDictNotCallable : InitMsg
  | autoRegisterNotBool : InitMsg
  | subjectNameStrategyNotCallable : InitMsg
  | unrecognizedProperties (keys : List String) : InitMsg
  | missingTitle : InitMsg
  | invalidJson : InitMsg
deriving DecidableEq

/-- The Python exceptions observable on the code paths under
verification. -/
inductive PyErr where
  | serializationError (msg : SerMsg) : PyErr
  | typeError : PyErr
  | valueError (msg : InitMsg) : PyErr
  | structError : PyErr
  | attributeError : PyErr
deriving DecidableEq

/-- One observable call to the Registry Gateway. -/
inductive RegistryCall where
  | register (subject : String) : RegistryCall
  | lookup (subject : String) : RegistryCall
deriving DecidableEq

/-- A Python value supplied in the configuration dict, recorded with
just enough structure to decide the `isinstance(..., bool)` and
`callable(...)` checks the source performs on the popped entries. -/
inductive ConfVal where
  | boolVal (b : Bool) : ConfVal
  | funcVal (f : SerializationContext → JsonValue → String) : ConfVal
  | otherVal : ConfVal

/-- The `to_dict` constructor argument: absent (`None`), a callable, or
a non-callable value. -/
inductive ToDictArg where
  | none : ToDictArg
  | callable (f : SerializationContext → JsonValue → JsonValue) : ToDictArg
  | notCallable : ToDictArg

/-- The stored `_to_dict` field for a given constructor argument. -/
def ToDictArg.toFun : ToDictArg → Option (SerializationContext → JsonValue → JsonValue)
  | ToDictArg.none => Option.none
  | ToDictArg.callable f => some f
  | ToDictArg.notCallable => Option.none

/-- The `JsonSerializer` instance state: the `__slots__` fields read or
written by the verified code paths (`_hash` is never touched by them). -/
structure JsonSerializer where
  _registry : SchemaRegistryClient
  _schema_id : Option Nat
  _known_subjects : List String
  _to_dict : Option (SerializationContext → JsonValue → JsonValue)
  _auto_register : Bool
  _subject_name_func : SerializationContext → JsonValue → String
  _parsed_schema : JsonValue
  _schema_name : JsonValue
  _schema : Schema

/-- Lookup of a recognized key in the merged configuration: a key
supplied in `conf` overrides the entry of `_default_conf`
(`dict.update` followed by `pop`). -/
def confLookup (conf : Option (List (String × ConfVal))) (key : String)
    (dflt : ConfVal) : ConfVal :=
  match conf with
  | Option.none => dflt
  | some cs =>
    match cs.find? (fun p => p.1 = key) with
    | some p => p.2
    | Option.none => dflt

/-- The configuration keys that survive the two `pop` calls; a
non-empty remainder is a construction error. -/
def unrecognizedKeys (conf : Option (List (String × ConfVal))) : List String :=
  match conf with
  | Option.none => []
  | some cs =>
    (cs.map Prod.fst).filter
      (fun k => !(decide (k = "auto.register.schemas")) &&
        !(decide (k = "subject.name.strategy")))

/-- `schema_dict.get('title', None)` on the members of a parsed JSON
object; `json.loads` keeps the last of duplicate keys, hence the last
match is read. -/
def dictGet (kvs : List (List Nat × JsonValue)) (key : List Nat) : JsonValue :=
  match (kvs.filter (fun p => decide (p.1 = key))).getLast? with
  | some p => p.2
  | Option.none => JsonValue.null

/-- `JsonSerializer.__init__` after the `to_dict` check (lines
117-141): merge the configuration over the defaults; pop
`auto.register.schemas` and require a boolean; pop
`subject.name.strategy` and require a callable; reject leftover keys;
parse the schema string; read the `title` annotation (absent on a
non-object schema document, where `.get` raises `AttributeError`) and
require it to be present. -/
def JsonSerializer.initConf (schema_registry_client : SchemaRegistryClient)
    (schema_str : List Nat) (td : ToDictArg)
    (conf : Option (List (String × ConfVal))) : Except PyErr JsonSerializer :=
    match confLookup conf "auto.register.schemas" (ConfVal.boolVal true) with
    | ConfVal.boolVal b =>
      match confLookup conf "subject.name.strategy"
          (ConfVal.funcVal topic_subject_name_strategy) with
      | ConfVal.funcVal fstrat =>
        match unrecognizedKeys conf with
        | _ :: _ =>
          .error (.valueError (.unrecognizedProperties (unrecognizedKeys conf)))
        | [] =>
          match jsonLoads schema_str with
          | Option.none => .error (.valueError .invalidJson)
          | some sd =>
            match sd with
            | JsonValue.obj kvs =>
              match dictGet kvs (ascii "title") with
              | JsonValue.null => .error (.valueError .missingTitle)
              | name =>
                .ok { _registry := schema_registry_client
                      _schema_id := Option.none
                      _known_subjects := []
                      _to_dict := td.toFun
                      _auto_register := b
                      _subject_name_func := fstrat
                      _parsed_schema := JsonValue.obj kvs
                      _schema_name := name
                      _schema := ⟨schema_str, "JSON"⟩ }
            | _ => .error .attributeError
      | _ => .error (.valueError .subjectNameStrategyNotCallable)
    | _ => .error (.valueError .autoRegisterNotBool)

/-- `JsonSerializer.__init__` entry: the `to_dict` callability check of
lines 111-113, then the configuration and schema handling. -/
def JsonSerializer.init (schema_registry_client : SchemaRegistryClient)
    (schema_str : List Nat) (to_dict : ToDictArg)
    (conf : Option (List (String × ConfVal))) : Except PyErr JsonSerializer :=
  match to_dict with
  | ToDictArg.notCallable => .error (.valueError .toDictNotCallable)
  | td => JsonSerializer.initConf schema_registry_client schema_str td conf

/-- Big-endian byte layout of the schema id, as `struct.pack('>bI', ...)`
writes it (failing on values outside 32 bits is handled at the call
site). -/
def packBE32 (n : Nat) : List Nat :=
  [n / 0x1000000 % 0x100, n / 0x10000 % 0x100, n / 0x100 % 0x100, n % 0x100]

/-- Big-endian 32-bit read of the id bytes, as `struct.unpack('>bI', ...)`
interprets bytes 1..4 of the frame. -/
def readBE32 (bs : List Nat) : Nat := bs.foldl (fun a b => a * 0x100 + b) 0

/-- Signed reading of the first frame byte (format character `'>b'`). -/
def toSignedByte (b : Nat) : Int := if b < 0x80 then (b : Int) else (b : Int) - 0x100

/-- The registration gate of `JsonSerializer.__call__` (lines 171-182):
for a subject not yet cached, call `register_schema` (auto-register
mode) or `lookup_schema` (otherwise), store the returned id in
`_schema_id` and add the subject to `_known_subjects`; for a cached
subject, do nothing.  The performed registry calls are returned
alongside the updated state. -/
def registrationGate (st : JsonSerializer) (subject : String) :
    JsonSerializer × List RegistryCall :=
  if st._auto_register && !(st._known_subjects.contains subject) then
    ({ st with
        _schema_id := some (st._registry.register_schema subject st._schema)
        _known_subjects := subject :: st._known_subjects },
      [RegistryCall.register subject])
  else if !st._auto_register && !(st._known_subjects.contains subject) then
    ({ st with
        _schema_id := some ((st._registry.lookup_schema subject st._schema).schema_id)
        _known_subjects := subject :: st._known_subjects },
      [RegistryCall.lookup subject])
  else (st, [])

/-- The non-`None` branch of `JsonSerializer.__call__` (lines 168-200):
resolve the subject, run the registration gate, apply `to_dict` when
configured, validate (a violation becomes a `SerializationError` with
the validator's message), and frame magic byte, big-endian id and the
JSON text of the value.  The updated instance state and the registry
calls performed are returned explicitly; `struct.pack` raises a
`TypeError` on a `None` id (unreachable from a fresh instance) and a
`struct.error` on an id outside 32 bits. -/
def JsonSerializer.callBody (validator : Validator) (st : JsonSerializer)
    (ctx : SerializationContext) (obj : JsonValue) :
    Except PyErr (Option (List Nat)) × JsonSerializer × List RegistryCall :=
  let subject := st._subject_name_func ctx st._schema_name
  let gate := registrationGate st subject
  let value := match st._to_dict with
    | some f => f ctx obj
    | Option.none => obj
  match validator.validate value st._parsed_schema with
  | .error m => (.error (.serializationError (.validationMessage m)), gate.1, gate.2)
  | .ok _ =>
    match gate.1._schema_id with
    | Option.none => (.error .typeError, gate.1, gate.2)
    | some id =>
      if id < 0x100000000 then
        (.ok (some (_MAGIC_BYTE :: packBE32 id ++ dumpJson value)), gate.1, gate.2)
      else (.error .structError, gate.1, gate.2)

/-- `JsonSerializer.__call__` (lines 143-200): a `None` object
short-circuits to `None` with no other work; anything else goes through
the serialization body. -/
def JsonSerializer.call (validator : Validator) (st : JsonSerializer)
    (ctx : SerializationContext) (obj : JsonValue) :
    Except PyErr (Option (List Nat)) × JsonSerializer × List RegistryCall :=
  match obj with
  | JsonValue.null => (.ok Option.none, st, [])
  | o => JsonSerializer.callBody validator st ctx o

/-- The `JsonDeserializer` instance state. -/
structure JsonDeserializer where
  _registry : SchemaRegistryClient
  _schema : JsonValue
  _from_dict : Option (SerializationContext → JsonValue → JsonValue)

/-- `JsonDeserializer.__init__` (lines 223-231): parse the schema
string and reject a non-callable `from_dict`. -/
def JsonDeserializer.init (schema_registry_client : SchemaRegistryClient)
    (schema_str : List Nat) (from_dict : ToDictArg) : Except PyErr JsonDeserializer :=
  match jsonLoads schema_str with
  | Option.none => .error (.valueError .invalidJson)
  | some sd =>
    match from_dict with
    | ToDictArg.notCallable => .error (.valueError .fromDictNotCallable)
    | fd =>
      .ok { _registry := schema_registry_client
            _schema := sd
            _from_dict := fd.toFun }

/-- `JsonDeserializer.__call__` (lines 233-266): reject a buffer of
five or fewer bytes, unpack the magic byte (signed) and the big-endian
id, reject a wrong magic byte, parse the rest as JSON, and apply
`from_dict` when configured.  A `None` payload is not short-circuited:
`len(value)` raises `TypeError` on `None`. -/
def JsonDeserializer.call (d : JsonDeserializer) (ctx : SerializationContext)
    (value : Option (List Nat)) : Except PyErr JsonValue :=
  match value with
  | Option.none => .error .typeError
  | some bs =>
    if bs.length ≤ 5 then .error (.serializationError (.tooSmall bs))
    else
      let magic := toSignedByte (bs.headD 0)
      let _schema_id := readBE32 ((bs.drop 1).take 4)
      if magic ≠ (_MAGIC_BYTE : Int) then .error (.serializationError .badMagicByte)
      else
        match jsonLoads (bs.drop 5) with
        | Option.none => .error (.valueError .invalidJson)
        | some obj_dict =>
          match d._from_dict with
          | some f => .ok (f ctx obj_dict)
          | Option.none => .ok obj_dict

/-- A sequence of serialization calls against one serializer instance,
threading the instance state and collecting every registry call made. -/
def runCalls (validator : Validator) (st : JsonSerializer) :
    List (SerializationContext × JsonValue) → JsonSerializer × List RegistryCall
  | [] => (st, [])
  | (ctx, obj) :: rest =>
    let r := JsonSerializer.call validator st ctx obj
    let rr := runCalls validator r.2.1 rest
    (rr.1, r.2.2 ++ rr.2)

/-- `isinstance(x, bool)` on a configuration value. -/
def ConfVal.isBool : ConfVal → Bool
  | ConfVal.boolVal _ => true
  | _ => false

/-- `callable(x)` on a configuration value. -/
def ConfVal.isCallable : ConfVal → Bool
  | ConfVal.funcVal _ => true
  | _ => false

/-- The title annotation of a parsed schema document: present exactly
when the document is a JSON object whose `title` entry exists and is
not null (`.get('title', None)` followed by the `is None` test; a
non-object document has no title). -/
def schemaTitle : JsonValue → Option JsonValue
  | JsonValue.obj kvs =>
    match dictGet kvs (ascii "title") with
    | JsonValue.null => Option.none
    | v => some v
  | _ => Option.none

/-- A registry gateway for concrete evaluations: registration returns
id 1, lookup returns id 2. -/
def oneRegistry : SchemaRegistryClient :=
  ⟨fun _ _ => 1, fun _ _ => ⟨2⟩⟩

/-- A concrete instance of the validation capability used for concrete
evaluations: for an object schema carrying a `required` list it checks
that the value is an object containing every required key, mirroring
`jsonschema.validate` on the scenario schema of spec section 8. -/
def requiredValidator : Validator :=
  ⟨fun value schema =>
    match schema with
    | JsonValue.obj skvs =>
      match dictGet skvs (ascii "required") with
      | JsonValue.arr reqs =>
        match value with
        | JsonValue.obj kvs =>
          if reqs.all (fun r =>
            match r with
            | JsonValue.str k => (kvs.map Prod.fst).contains k
            | _ => true)
          then .ok () else .error "required property is missing"
        | _ => .error "value is not an object"
      | _ => .ok ()
    | _ => .ok ()⟩

/-- The scenario schema text of spec section 8, shortened to the parts
the concrete validator reads: a title and a required list. -/
def userSchemaStr : List Nat :=
  0x7b :: ascii "\"title\": \"User\", \"required\": [\"name\"]" ++ [0x7d]

/-- The parsed form of `userSchemaStr`. -/
def userSchema : JsonValue :=
  JsonValue.obj [(ascii "title", JsonValue.str (ascii "User")),
    (ascii "required", JsonValue.arr [JsonValue.str (ascii "name")])]

/-- The scenario value of spec section 8. -/
def adaVal : JsonValue := JsonValue.obj [(ascii "name", JsonValue.str (ascii "Ada"))]

/-- A freshly constructed serializer over the scenario schema with the
default configuration. -/
def serState : JsonSerializer where
  _registry := oneRegistry
  _schema_id := Option.none
  _known_subjects := []
  _to_dict := Option.none
  _auto_register := true
  _subject_name_func := topic_subject_name_strategy
  _parsed_schema := userSchema
  _schema_name := JsonValue.str (ascii "User")
  _schema := ⟨userSchemaStr, "JSON"⟩

/-- A deserializer over the scenario schema with no materializer. -/
def deserState : JsonDeserializer where
  _registry := oneRegistry
  _schema := userSchema
  _from_dict := Option.none

/-- The per-call context of the scenario: topic "topic", message field
"value". -/
def ctx0 : SerializationContext := ⟨"topic", "value"⟩

/-- The state of the scenario serializer after its first registration:
id 1 cached, subject "topic-value" known. -/
def serState1 : JsonSerializer :=
  { serState with _schema_id := some 1, _known_subjects := ["topic-value"] }

/-- A list whose head cannot extend or alter a preceding JSON number:
not a digit, not a decimal point, not an exponent marker.  The
separators and closers produced by the printer all qualify. -/
def boundary : List Nat → Bool
  | [] => true
  | c :: _ =>
    !(decide (0x30 ≤ c ∧ c ≤ 0x39)) && !(decide (c = 0x2e)) &&
      !(decide (c = 0x65)) && !(decide (c = 0x45))

/-- Every character is a decimal digit. -/
def allDigits (ds : List Nat) : Bool := ds.all (fun c => decide (0x30 ≤ c ∧ c ≤ 0x39))

/-- Numeric value accumulated over digit characters. -/
def foldVal (acc : Nat) (ds : List Nat) : Nat :=
  ds.foldl (fun a c => a * 10 + (c - 0x30)) acc

/-! ### Round-trip of the JSON text: parsing what the encoder printed -/

theorem takeLit_append (p s : List Nat) : takeLit p (p ++ s) = some s := by
  induction p with
  | nil => rfl
  | cons c cs ih => simp [takeLit, ih]

theorem hexVal_hexDig (d : Nat) (h : d < 16) : hexVal (hexDig d) = some d := by
  unfold hexDig hexVal
  by_cases h10 : d < 10
  · rw [if_pos h10, if_pos (by omega)]
    simp only [Option.some.injEq]; omega
  · rw [if_neg h10, if_neg (by omega), if_pos (by omega)]
    simp only [Option.some.injEq]; omega

theorem hex4Val_hex4 (n : Nat) (h : n < 0x10000) :
    hex4Val (hexDig (n / 4096 % 16)) (hexDig (n / 256 % 16))
      (hexDig (n / 16 % 16)) (hexDig (n % 16)) = some n := by
  have h1 : n / 4096 % 16 < 16 := Nat.mod_lt _ (by omega)
  have h2 : n / 256 % 16 < 16 := Nat.mod_lt _ (by omega)
  have h3 : n / 16 % 16 < 16 := Nat.mod_lt _ (by omega)
  have h4 : n % 16 < 16 := Nat.mod_lt _ (by omega)
  simp [hex4Val, hexVal_hexDig _ h1, hexVal_hexDig _ h2,
    hexVal_hexDig _ h3, hexVal_hexDig _ h4]
  omega

theorem rst_quote (r : List Nat) : readStrTok (0x22 :: r) = some (.close r) := rfl

theorem rst_esc (e u : Nat) (r : List Nat) (hu : unescape e = some u) (he : ¬ e = 0x75) :
    readStrTok (0x5c :: e :: r) = some (.char u r) := by
  simp [readStrTok, he, hu]

theorem rst_raw (c : Nat) (r : List Nat) (h22 : ¬ c = 0x22) (h5c : ¬ c = 0x5c) :
    readStrTok (c :: r) = some (.char c r) := by
  simp [readStrTok, h22, h5c]

theorem rst_u (h1 h2 h3 h4 n : Nat) (r : List Nat)
    (hn : hex4Val h1 h2 h3 h4 = some n) (hq : ¬ (0xd800 ≤ n ∧ n ≤ 0xdbff)) :
    readStrTok (0x5c :: 0x75 :: h1 :: h2 :: h3 :: h4 :: r) = some (.char n r) := by
  simp [readStrTok, hn, hq]

theorem rst_u_pair (h1 h2 h3 h4 g1 g2 g3 g4 n m : Nat) (r : List Nat)
    (hn : hex4Val h1 h2 h3 h4 = some n) (hq : 0xd800 ≤ n ∧ n ≤ 0xdbff)
    (hm : hex4Val g1 g2 g3 g4 = some m) (hq2 : 0xdc00 ≤ m ∧ m ≤ 0xdfff) :
    readStrTok (0x5c :: 0x75 :: h1 :: h2 :: h3 :: h4 ::
        0x5c :: 0x75 :: g1 :: g2 :: g3 :: g4 :: r) =
      some (.char (0x10000 + (n - 0xd800) * 0x400 + (m - 0xdc00)) r) := by
  simp [readStrTok, hn, hq.1, hq.2, hm, hq2.1, hq2.2]

theorem psb_char (fuel : Nat) (s : List Nat) (c : Nat) (r : List Nat)
    (h : readStrTok s = some (.char c r)) :
    parseStringBody (fuel + 1) s =
      (parseStringBody fuel r).map (fun p => (c :: p.1, p.2)) := by
  simp [parseStringBody, h]

theorem psb_close (fuel : Nat) (s : List Nat) (r : List Nat)
    (h : readStrTok s = some (.close r)) :
    parseStringBody (fuel + 1) s = some ([], r) := by
  simp [parseStringBody, h]

theorem escChar_printable (c : Nat) (hpr : 0x20 ≤ c ∧ c ≤ 0x7e)
    (h22 : ¬ c = 0x22) (h5c : ¬ c = 0x5c) : escChar c = [c] := by
  have n08 : ¬ c = 0x08 := by omega
  have n09 : ¬ c = 0x09 := by omega
  have n0a : ¬ c = 0x0a := by omega
  have n0c : ¬ c = 0x0c := by omega
  have n0d : ¬ c = 0x0d := by omega
  unfold escChar
  rw [if_neg h22, if_neg h5c, if_neg n08, if_neg n09, if_neg n0a,
    if_neg n0c, if_neg n0d, if_pos hpr]

theorem escChar_u (c : Nat) (hpr : ¬ (0x20 ≤ c ∧ c ≤ 0x7e)) (hbmp : c < 0x10000)
    (h08 : ¬ c = 0x08) (h09 : ¬ c = 0x09) (h0a : ¬ c = 0x0a)
    (h0c : ¬ c = 0x0c) (h0d : ¬ c = 0x0d) :
    escChar c = 0x5c :: 0x75 :: hex4 c := by
  have n22 : ¬ c = 0x22 := by omega
  have n5c : ¬ c = 0x5c := by omega
  unfold escChar
  rw [if_neg n22, if_neg n5c, if_neg h08, if_neg h09, if_neg h0a,
    if_neg h0c, if_neg h0d, if_neg hpr, if_pos hbmp]

theorem escChar_astral (c : Nat) (h : ¬ c < 0x10000) :
    escChar c = 0x5c :: 0x75 :: hex4 (0xd800 + (c - 0x10000) / 0x400) ++
      (0x5c :: 0x75 :: hex4 (0xdc00 + (c - 0x10000) % 0x400)) := by
  have n22 : ¬ c = 0x22 := by omega
  have n5c : ¬ c = 0x5c := by omega
  have n08 : ¬ c = 0x08 := by omega
  have n09 : ¬ c = 0x09 := by omega
  have n0a : ¬ c = 0x0a := by omega
  have n0c : ¬ c = 0x0c := by omega
  have n0d : ¬ c = 0x0d := by omega
  have npr : ¬ (0x20 ≤ c ∧ c ≤ 0x7e) := by omega
  unfold escChar
  rw [if_neg n22, if_neg n5c, if_neg n08, if_neg n09, if_neg n0a,
    if_neg n0c, if_neg n0d, if_neg npr, if_neg h]

/-- Reading the escaped form of one well-formed character yields that
character back, leaving exactly the remaining escaped text. -/
theorem wfChar_facts (c : Nat) (h : wfChar c = true) :
    c < 0x110000 ∧ (c < 0xd800 ∨ 0xe000 ≤ c) := by
  unfold wfChar at h
  simp only [Bool.and_eq_true, decide_eq_true_eq, Bool.not_eq_true',
    Bool.and_eq_false_iff, decide_eq_false_iff_not, not_le, not_lt] at h
  rcases h with ⟨h1, h2 | h2⟩
  · exact ⟨h1, Or.inl h2⟩
  · exact ⟨h1, Or.inr h2⟩

theorem readStrTok_escChar (c : Nat) (t : List Nat) (hwf : wfChar c = true) :
    readStrTok (escChar c ++ t) = some (.char c t) := by
  have hc := wfChar_facts c hwf
  by_cases h22 : c = 0x22
  · subst h22; exact rst_esc 0x22 0x22 t rfl (by decide)
  · by_cases h5c : c = 0x5c
    · subst h5c; exact rst_esc 0x5c 0x5c t rfl (by decide)
    · by_cases h08 : c = 0x08
      · subst h08; exact rst_esc 0x62 0x08 t rfl (by decide)
      · by_cases h09 : c = 0x09
        · subst h09; exact rst_esc 0x74 0x09 t rfl (by decide)
        · by_cases h0a : c = 0x0a
          · subst h0a; exact rst_esc 0x6e 0x0a t rfl (by decide)
          · by_cases h0c : c = 0x0c
            · subst h0c; exact rst_esc 0x66 0x0c t rfl (by decide)
            · by_cases h0d : c = 0x0d
              · subst h0d; exact rst_esc 0x72 0x0d t rfl (by decide)
              · by_cases hpr : 0x20 ≤ c ∧ c ≤ 0x7e
                · rw [escChar_printable c hpr h22 h5c, List.cons_append, List.nil_append]
                  exact rst_raw c t h22 h5c
                · by_cases hbmp : c < 0x10000
                  · have hq : ¬ (0xd800 ≤ c ∧ c ≤ 0xdbff) := by
                      rcases hc.2 with h | h <;> omega
                    rw [escChar_u c hpr hbmp h08 h09 h0a h0c h0d,
                      show hex4 c = [hexDig (c / 4096 % 16), hexDig (c / 256 % 16),
                        hexDig (c / 16 % 16), hexDig (c % 16)] from rfl]
                    simp only [List.cons_append, List.nil_append]
                    exact rst_u _ _ _ _ c _ (hex4Val_hex4 c hbmp) hq
                  · have hlt : c < 0x110000 := hc.1
                    have hhi : 0xd800 + (c - 0x10000) / 0x400 < 0x10000 := by omega
                    have hmod : (c - 0x10000) % 0x400 < 0x400 :=
                      Nat.mod_lt _ (by omega)
                    have hlo : 0xdc00 + (c - 0x10000) % 0x400 < 0x10000 := by omega
                    have hq : 0xd800 ≤ 0xd800 + (c - 0x10000) / 0x400 ∧
                        0xd800 + (c - 0x10000) / 0x400 ≤ 0xdbff := by omega
                    have hq2 : 0xdc00 ≤ 0xdc00 + (c - 0x10000) % 0x400 ∧
                        0xdc00 + (c - 0x10000) % 0x400 ≤ 0xdfff := by omega
                    have hrec : 0x10000 +
                        ((0xd800 + (c - 0x10000) / 0x400) - 0xd800) * 0x400 +
                        ((0xdc00 + (c - 0x10000) % 0x400) - 0xdc00) = c := by
                      have := Nat.div_add_mod (c - 0x10000) 0x400
                      omega
                    rw [escChar_astral c hbmp,
                      show hex4 (0xd800 + (c - 0x10000) / 0x400) =
                        [hexDig ((0xd800 + (c - 0x10000) / 0x400) / 4096 % 16),
                         hexDig ((0xd800 + (c - 0x10000) / 0x400) / 256 % 16),
                         hexDig ((0xd800 + (c - 0x10000) / 0x400) / 16 % 16),
                         hexDig ((0xd800 + (c - 0x10000) / 0x400) % 16)] from rfl,
                      show hex4 (0xdc00 + (c - 0x10000) % 0x400) =
                        [hexDig ((0xdc00 + (c - 0x10000) % 0x400) / 4096 % 16),
                         hexDig ((0xdc00 + (c - 0x10000) % 0x400) / 256 % 16),
                         hexDig ((0xdc00 + (c - 0x10000) % 0x400) / 16 % 16),
                         hexDig ((0xdc00 + (c - 0x10000) % 0x400) % 16)] from rfl]
                    simp only [List.cons_append, List.nil_append, List.append_assoc]
                    rw [rst_u_pair _ _ _ _ _ _ _ _ _ _ _
                      (hex4Val_hex4 _ hhi) hq (hex4Val_hex4 _ hlo) hq2, hrec]

theorem parseStringBody_escList (s : List Nat) :
    ∀ (fuel : Nat) (rest : List Nat), s.all wfChar = true → s.length + 1 ≤ fuel →
      parseStringBody fuel (escList s ++ 0x22 :: rest) = some (s, rest) := by
  induction s with
  | nil =>
    intro fuel rest _ hf
    obtain ⟨f, rfl⟩ : ∃ f, fuel = f + 1 := ⟨fuel - 1, by omega⟩
    rw [show escList [] ++ 0x22 :: rest = 0x22 :: rest from rfl]
    exact psb_close f _ rest (rst_quote rest)
  | cons c cs ih =>
    intro fuel rest h hf
    obtain ⟨f, rfl⟩ : ∃ f, fuel = f + 1 := ⟨fuel - 1, by omega⟩
    simp only [List.all_cons, Bool.and_eq_true] at h
    obtain ⟨hc, hcs⟩ := h
    simp only [escList, List.append_assoc]
    rw [psb_char f _ c _ (readStrTok_escChar c _ hc),
      ih f rest hcs (by simpa using Nat.succ_le_succ_iff.mp hf)]
    rfl



theorem parseDigitsAux_digits (ds : List Nat) :
    ∀ (acc : Nat) (rest : List Nat), allDigits ds = true →
      parseDigitsAux acc (ds ++ rest) = parseDigitsAux (foldVal acc ds) rest := by
  induction ds with
  | nil => intro acc rest _; rfl
  | cons c cs ih =>
    intro acc rest h
    simp only [allDigits, List.all_cons, Bool.and_eq_true, decide_eq_true_eq] at h
    simp only [List.cons_append, parseDigitsAux, digitVal, if_pos h.1]
    rw [show foldVal acc (c :: cs) = foldVal (acc * 10 + (c - 0x30)) cs from rfl]
    exact ih _ rest (by simpa [allDigits] using h.2)

theorem parseDigitsAux_stop (acc : Nat) (rest : List Nat) (h : boundary rest = true) :
    parseDigitsAux acc rest = (acc, rest) := by
  cases rest with
  | nil => rfl
  | cons c r =>
    simp only [boundary, Bool.and_eq_true, Bool.not_eq_true',
      decide_eq_false_iff_not] at h
    simp only [parseDigitsAux, digitVal, if_neg h.1.1.1]

theorem natReprAux_allDigits (fuel : Nat) :
    ∀ n, n < fuel → allDigits (natReprAux fuel n) = true := by
  induction fuel with
  | zero => intro n h; omega
  | succ f ih =>
    intro n h
    by_cases h10 : n < 10
    · simp [natReprAux, if_pos h10, allDigits]
      omega
    · simp only [natReprAux, if_neg h10]
      have hd : n / 10 < f := by omega
      simp only [allDigits, List.all_append, Bool.and_eq_true]
      refine ⟨ih (n / 10) hd, ?_⟩
      simp [allDigits]
      omega

theorem natReprAux_ne_nil (fuel n : Nat) (h : n < fuel) : natReprAux fuel n ≠ [] := by
  cases fuel with
  | zero => omega
  | succ f =>
    by_cases h10 : n < 10
    · simp [natReprAux, if_pos h10]
    · simp only [natReprAux, if_neg h10]
      exact fun hcon => by simpa using congrArg List.length hcon

theorem foldVal_natReprAux (fuel : Nat) :
    ∀ n acc, n < fuel →
      foldVal acc (natReprAux fuel n) =
        acc * 10 ^ (natReprAux fuel n).length + n := by
  induction fuel with
  | zero => intro n acc h; omega
  | succ f ih =>
    intro n acc h
    by_cases h10 : n < 10
    · simp only [natReprAux, if_pos h10, foldVal, List.foldl_cons, List.foldl_nil,
        List.length_cons, List.length_nil]
      have : 0x30 + n - 0x30 = n := by omega
      rw [this]
      norm_num
    · have hd : n / 10 < f := by omega
      simp only [natReprAux, if_neg h10, foldVal, List.foldl_append, List.foldl_cons,
        List.foldl_nil, List.length_append, List.length_cons, List.length_nil]
      have hih := ih (n / 10) acc hd
      simp only [foldVal] at hih
      rw [hih]
      have hmod : 0x30 + n % 10 - 0x30 = n % 10 := by omega
      rw [hmod, pow_succ]
      have hdm := Nat.div_add_mod n 10
      set q := n / 10 with hq
      set r := n % 10 with hr
      rw [← hdm]
      ring

theorem foldVal_natRepr (n : Nat) : foldVal 0 (natRepr n) = n := by
  have := foldVal_natReprAux (n + 1) n 0 (Nat.lt_succ_self n)
  simpa [natRepr] using this

theorem natRepr_head (n : Nat) :
    ∃ c ds, natRepr n = c :: ds ∧ (0x30 ≤ c ∧ c ≤ 0x39) ∧ allDigits ds = true := by
  have hall := natReprAux_allDigits (n + 1) n (Nat.lt_succ_self n)
  have hne := natReprAux_ne_nil (n + 1) n (Nat.lt_succ_self n)
  rw [show natReprAux (n + 1) n = natRepr n from rfl] at hall hne
  cases hrep : natRepr n with
  | nil => exact absurd hrep hne
  | cons c ds =>
    rw [hrep] at hall
    simp only [allDigits, List.all_cons, Bool.and_eq_true, decide_eq_true_eq] at hall
    exact ⟨c, ds, rfl, hall.1, by simpa [allDigits] using hall.2⟩

theorem parsePosNum_natRepr (n : Nat) (rest : List Nat) (hb : boundary rest = true) :
    parsePosNum (natRepr n ++ rest) = some (n, rest) := by
  obtain ⟨c, ds, hrep, hcd, hds⟩ := natRepr_head n
  have hval : foldVal (c - 0x30) ds = n := by
    have h0 : foldVal 0 (c :: ds) = n := by rw [← hrep]; exact foldVal_natRepr n
    simpa [foldVal] using h0
  rw [hrep, List.cons_append]
  simp only [parsePosNum, digitVal, if_pos hcd]
  rw [parseDigitsAux_digits ds (c - 0x30) rest hds, parseDigitsAux_stop _ rest hb, hval]
  cases rest with
  | nil => rfl
  | cons c2 r2 =>
    simp only [boundary, Bool.and_eq_true, Bool.not_eq_true', decide_eq_false_iff_not] at hb
    simp only [if_neg (show ¬ (c2 = 0x2e ∨ c2 = 0x65 ∨ c2 = 0x45) by
      rintro (h | h | h)
      exacts [hb.1.1.2 h, hb.1.2 h, hb.2 h])]

theorem parseNum_intRepr (i : Int) (rest : List Nat) (hb : boundary rest = true) :
    parseNum (intRepr i ++ rest) = some (i, rest) := by
  by_cases hneg : i < 0
  · rw [intRepr, if_pos hneg, List.cons_append]
    simp only [parseNum, if_pos rfl]
    rw [parsePosNum_natRepr i.natAbs rest hb]
    simp only [Option.map_some']
    rw [show -((i.natAbs : Nat) : Int) = i by omega]
    simp
  · rw [intRepr, if_neg hneg]
    obtain ⟨c, ds, hrep, hcd, _⟩ := natRepr_head i.toNat
    rw [hrep, List.cons_append]
    simp only [parseNum, if_neg (show ¬ c = 0x2d by omega)]
    rw [← List.cons_append, ← hrep, parsePosNum_natRepr i.toNat rest hb]
    simp only [Option.map_some']
    rw [show ((i.toNat : Nat) : Int) = i by omega]

theorem skipWs_cons (c : Nat) (r : List Nat) (h : isWs c = false) :
    skipWs (c :: r) = c :: r := by
  simp [skipWs, h]

theorem skipWs_ws_cons (c : Nat) (r : List Nat) (h : isWs c = true) :
    skipWs (c :: r) = skipWs r := by
  simp [skipWs, h]

theorem parseValue_ws (fuel : Nat) (c : Nat) (s : List Nat) (h : isWs c = true) :
    parseValue fuel (c :: s) = parseValue fuel s := by
  cases fuel with
  | zero => rfl
  | succ f => simp [parseValue, skipWs, h]

theorem intRepr_head (i : Int) :
    ∃ c ds, intRepr i = c :: ds ∧ (c = 0x2d ∨ (0x30 ≤ c ∧ c ≤ 0x39)) := by
  by_cases hneg : i < 0
  · exact ⟨0x2d, natRepr i.natAbs, by rw [intRepr, if_pos hneg], Or.inl rfl⟩
  · obtain ⟨c, ds, hrep, hcd, _⟩ := natRepr_head i.toNat
    exact ⟨c, ds, by rw [intRepr, if_neg hneg, hrep], Or.inr hcd⟩

theorem dumpJson_head (v : JsonValue) :
    ∃ c t, dumpJson v = c :: t ∧ isWs c = false ∧ ¬ c = 0x5d ∧ ¬ c = 0x2c ∧ ¬ c = 0x7d := by
  cases v with
  | null => exact ⟨0x6e, _, rfl, by decide, by decide, by decide, by decide⟩
  | bool b =>
    cases b with
    | true => exact ⟨0x74, _, rfl, by decide, by decide, by decide, by decide⟩
    | false => exact ⟨0x66, _, rfl, by decide, by decide, by decide, by decide⟩
  | int i =>
    obtain ⟨c, ds, hrep, hcd⟩ := intRepr_head i
    refine ⟨c, ds, by simpa [dumpJson] using hrep, ?_, ?_, ?_, ?_⟩
    · simp only [isWs, Bool.or_eq_false_iff, decide_eq_false_iff_not]
      rcases hcd with h | h <;> omega
    · rcases hcd with h | h <;> omega
    · rcases hcd with h | h <;> omega
    · rcases hcd with h | h <;> omega
  | str s => exact ⟨0x22, _, rfl, by decide, by decide, by decide, by decide⟩
  | arr elems => exact ⟨0x5b, _, rfl, by decide, by decide, by decide, by decide⟩
  | obj members => exact ⟨0x7b, _, rfl, by decide, by decide, by decide, by decide⟩

theorem dumpJson_ne_nil (v : JsonValue) : dumpJson v ≠ [] := by
  obtain ⟨c, t, h, _⟩ := dumpJson_head v
  simp [h]

theorem dumpJson_length_pos (v : JsonValue) : 1 ≤ (dumpJson v).length := by
  obtain ⟨c, t, h, _⟩ := dumpJson_head v
  simp [h]

theorem skipWs_dumpElems (xs : List JsonValue) (z : List Nat) :
    skipWs (dumpElems xs ++ 0x5d :: z) = dumpElems xs ++ 0x5d :: z := by
  cases xs with
  | nil => exact skipWs_cons 0x5d z (by decide)
  | cons x xs =>
    obtain ⟨c, t, h, hws, _⟩ := dumpJson_head x
    rw [show dumpElems (x :: xs) = dumpJson x ++ dumpElemsTail xs from rfl, h]
    simp only [List.cons_append, List.append_assoc]
    exact skipWs_cons c _ hws

theorem skipWs_dumpElemsTail (xs : List JsonValue) (z : List Nat) :
    skipWs (dumpElemsTail xs ++ 0x5d :: z) = dumpElemsTail xs ++ 0x5d :: z := by
  cases xs with
  | nil => exact skipWs_cons 0x5d z (by decide)
  | cons x xs =>
    rw [show dumpElemsTail (x :: xs) =
      0x2c :: 0x20 :: (dumpJson x ++ dumpElemsTail xs) from rfl]
    simp only [List.cons_append, List.append_assoc]
    exact skipWs_cons 0x2c _ (by decide)

theorem skipWs_dumpMembers (kvs : List (List Nat × JsonValue)) (z : List Nat) :
    skipWs (dumpMembers kvs ++ 0x7d :: z) = dumpMembers kvs ++ 0x7d :: z := by
  cases kvs with
  | nil => exact skipWs_cons 0x7d z (by decide)
  | cons kv kvs =>
    rw [show dumpMembers (kv :: kvs) =
      0x22 :: ((escList kv.1 ++ [0x22]) ++ ascii ": " ++ dumpJson kv.2 ++
        dumpMembersTail kvs) from by
        simp [dumpMembers, dumpString, List.append_assoc]]
    simp only [List.cons_append, List.append_assoc]
    exact skipWs_cons 0x22 _ (by decide)

theorem skipWs_dumpMembersTail (kvs : List (List Nat × JsonValue)) (z : List Nat) :
    skipWs (dumpMembersTail kvs ++ 0x7d :: z) = dumpMembersTail kvs ++ 0x7d :: z := by
  cases kvs with
  | nil => exact skipWs_cons 0x7d z (by decide)
  | cons kv kvs =>
    rw [show dumpMembersTail (kv :: kvs) =
      0x2c :: 0x20 :: (dumpString kv.1 ++ ascii ": " ++ dumpJson kv.2 ++
        dumpMembersTail kvs) from rfl]
    simp only [List.cons_append, List.append_assoc]
    exact skipWs_cons 0x2c _ (by decide)

theorem boundary_dumpElemsTail (xs : List JsonValue) (z : List Nat) :
    boundary (dumpElemsTail xs ++ 0x5d :: z) = true := by
  cases xs with
  | nil => rfl
  | cons x xs =>
    rw [show dumpElemsTail (x :: xs) =
      0x2c :: 0x20 :: (dumpJson x ++ dumpElemsTail xs) from rfl]
    rfl

theorem boundary_dumpMembersTail (kvs : List (List Nat × JsonValue)) (z : List Nat) :
    boundary (dumpMembersTail kvs ++ 0x7d :: z) = true := by
  cases kvs with
  | nil => rfl
  | cons kv kvs =>
    rw [show dumpMembersTail (kv :: kvs) =
      0x2c :: 0x20 :: (dumpString kv.1 ++ ascii ": " ++ dumpJson kv.2 ++
        dumpMembersTail kvs) from rfl]
    rfl

theorem escChar_length_pos (c : Nat) : 1 ≤ (escChar c).length := by
  unfold escChar
  split
  · simp
  · split
    · simp
    · split
      · simp
      · split
        · simp
        · split
          · simp
          · split
            · simp
            · split
              · simp
              · split
                · simp
                · split <;> simp [hex4]

theorem escList_length_ge (s : List Nat) : s.length ≤ (escList s).length := by
  induction s with
  | nil => simp [escList]
  | cons c cs ih =>
    simp only [escList, List.length_append, List.length_cons]
    have := escChar_length_pos c
    omega

theorem parseValue_succ_cons (f : Nat) (c : Nat) (r : List Nat) (hws : isWs c = false) :
    parseValue (f + 1) (c :: r) =
      (if c = 0x6e then (takeLit (ascii "ull") r).map (fun r2 => (.null, r2))
       else if c = 0x74 then (takeLit (ascii "rue") r).map (fun r2 => (.bool true, r2))
       else if c = 0x66 then (takeLit (ascii "alse") r).map (fun r2 => (.bool false, r2))
       else if c = 0x22 then (parseStringBody f r).map (fun p => (.str p.1, p.2))
       else if c = 0x5b then (parseElems f (skipWs r)).map (fun p => (.arr p.1, p.2))
       else if c = 0x7b then (parseMembers f (skipWs r)).map (fun p => (.obj p.1, p.2))
       else (parseNum (c :: r)).map (fun p => (.int p.1, p.2))) := by
  simp only [parseValue]
  rw [skipWs_cons c r hws]

theorem parseElems_succ (f : Nat) (c : Nat) (r : List Nat) :
    parseElems (f + 1) (c :: r) =
      (if c = 0x5d then some ([], r)
       else do
         let (v, r1) ← parseValue f (c :: r)
         let (vs, r2) ← parseElemsTail f (skipWs r1)
         pure (v :: vs, r2)) := by
  simp only [parseElems]

theorem parseElemsTail_succ (f : Nat) (c : Nat) (r : List Nat) :
    parseElemsTail (f + 1) (c :: r) =
      (if c = 0x5d then some ([], r)
       else if c = 0x2c then do
         let (v, r1) ← parseValue f r
         let (vs, r2) ← parseElemsTail f (skipWs r1)
         pure (v :: vs, r2)
       else none) := by
  simp only [parseElemsTail]

theorem parseMembers_succ (f : Nat) (c : Nat) (r : List Nat) :
    parseMembers (f + 1) (c :: r) =
      (if c = 0x7d then some ([], r)
       else if c = 0x22 then do
         let (k, r1) ← parseStringBody f r
         match skipWs r1 with
         | [] => none
         | c2 :: r2 =>
           if c2 = 0x3a then do
             let (v, r3) ← parseValue f r2
             let (kvs, r4) ← parseMembersTail f (skipWs r3)
             pure ((k, v) :: kvs, r4)
           else none
       else none) := by
  simp only [parseMembers]

theorem parseMembersTail_succ (f : Nat) (c : Nat) (r : List Nat) :
    parseMembersTail (f + 1) (c :: r) =
      (if c = 0x7d then some ([], r)
       else if c = 0x2c then
         match skipWs r with
         | [] => none
         | c1 :: r1 =>
           if c1 = 0x22 then do
             let (k, r2) ← parseStringBody f r1
             match skipWs r2 with
             | [] => none
             | c2 :: r3 =>
               if c2 = 0x3a then do
                 let (v, r4) ← parseValue f r3
                 let (kvs, r5) ← parseMembersTail f (skipWs r4)
                 pure ((k, v) :: kvs, r5)
               else none
           else none
       else none) := by
  simp only [parseMembersTail]

/-- Joint round-trip statement: parsing the printed form of a document
(or element/member list) recovers it exactly, for any sufficient fuel. -/
theorem parse_dump (fuel : Nat) :
    (∀ v rest, wfJson v = true → (dumpJson v).length + 1 ≤ fuel → boundary rest = true →
      parseValue fuel (dumpJson v ++ rest) = some (v, rest)) ∧
    (∀ xs rest, wfElems xs = true → (dumpElems xs).length + 2 ≤ fuel →
      parseElems fuel (dumpElems xs ++ 0x5d :: rest) = some (xs, rest)) ∧
    (∀ xs rest, wfElems xs = true → (dumpElemsTail xs).length + 2 ≤ fuel →
      parseElemsTail fuel (dumpElemsTail xs ++ 0x5d :: rest) = some (xs, rest)) ∧
    (∀ kvs rest, wfMembers kvs = true → (dumpMembers kvs).length + 2 ≤ fuel →
      parseMembers fuel (dumpMembers kvs ++ 0x7d :: rest) = some (kvs, rest)) ∧
    (∀ kvs rest, wfMembers kvs = true → (dumpMembersTail kvs).length + 2 ≤ fuel →
      parseMembersTail fuel (dumpMembersTail kvs ++ 0x7d :: rest) = some (kvs, rest)) := by
  induction fuel with
  | zero =>
    exact ⟨fun v rest _ h _ => absurd h (by omega),
           fun xs rest _ h => absurd h (by omega),
           fun xs rest _ h => absurd h (by omega),
           fun kvs rest _ h => absurd h (by omega),
           fun kvs rest _ h => absurd h (by omega)⟩
  | succ f ih =>
    obtain ⟨ihP, ihQ, ihT, ihM, ihMT⟩ := ih
    refine ⟨?_, ?_, ?_, ?_, ?_⟩
    · -- parseValue
      intro v rest hwf hlen hb
      cases v with
      | null =>
        rw [show dumpJson JsonValue.null ++ rest = 0x6e :: (ascii "ull" ++ rest) from rfl,
          parseValue_succ_cons f 0x6e _ (by decide), if_pos rfl, takeLit_append]
        rfl
      | bool b =>
        cases b with
        | true =>
          rw [show dumpJson (JsonValue.bool true) ++ rest =
            0x74 :: (ascii "rue" ++ rest) from rfl,
            parseValue_succ_cons f 0x74 _ (by decide), if_neg (by decide), if_pos rfl,
            takeLit_append]
          rfl
        | false =>
          rw [show dumpJson (JsonValue.bool false) ++ rest =
            0x66 :: (ascii "alse" ++ rest) from rfl,
            parseValue_succ_cons f 0x66 _ (by decide), if_neg (by decide),
            if_neg (by decide), if_pos rfl, takeLit_append]
          rfl
      | int i =>
        obtain ⟨c, ds, hrep, hcd⟩ := intRepr_head i
        rw [show dumpJson (JsonValue.int i) = intRepr i from rfl, hrep, List.cons_append,
          parseValue_succ_cons f c _ (by
            simp only [isWs, Bool.or_eq_false_iff, decide_eq_false_iff_not]
            rcases hcd with h | h <;> omega),
          if_neg (show ¬ c = 0x6e by rcases hcd with h | h <;> omega),
          if_neg (show ¬ c = 0x74 by rcases hcd with h | h <;> omega),
          if_neg (show ¬ c = 0x66 by rcases hcd with h | h <;> omega),
          if_neg (show ¬ c = 0x22 by rcases hcd with h | h <;> omega),
          if_neg (show ¬ c = 0x5b by rcases hcd with h | h <;> omega),
          if_neg (show ¬ c = 0x7b by rcases hcd with h | h <;> omega),
          ← List.cons_append, ← hrep, parseNum_intRepr i rest hb]
        rfl
      | str s =>
        have hwfs : s.all wfChar = true := by simpa [wfJson] using hwf
        have hlens : (escList s).length + 3 ≤ f + 1 := by
          have : (dumpJson (JsonValue.str s)).length = (escList s).length + 2 := by
            simp [dumpJson, dumpString]
          omega
        have hsk : s.length + 1 ≤ f := by
          have := escList_length_ge s
          omega
        rw [show dumpJson (JsonValue.str s) ++ rest =
          0x22 :: (escList s ++ 0x22 :: rest) from by
            simp [dumpJson, dumpString],
          parseValue_succ_cons f 0x22 _ (by decide), if_neg (by decide),
          if_neg (by decide), if_neg (by decide), if_pos rfl,
          parseStringBody_escList s f rest hwfs hsk]
        rfl
      | arr elems =>
        have hwfe : wfElems elems = true := by simpa [wfJson] using hwf
        have hlene : (dumpElems elems).length + 2 ≤ f := by
          have : (dumpJson (JsonValue.arr elems)).length =
              (dumpElems elems).length + 2 := by
            simp [dumpJson]
          omega
        rw [show dumpJson (JsonValue.arr elems) ++ rest =
          0x5b :: (dumpElems elems ++ 0x5d :: rest) from by
            simp [dumpJson, List.append_assoc],
          parseValue_succ_cons f 0x5b _ (by decide), if_neg (by decide),
          if_neg (by decide), if_neg (by decide), if_neg (by decide), if_pos rfl,
          skipWs_dumpElems, ihQ elems rest hwfe hlene]
        rfl
      | obj members =>
        have hwfm : wfMembers members = true := by
          have := hwf
          simp only [wfJson, Bool.and_eq_true] at this
          exact this.2
        have hlenm : (dumpMembers members).length + 2 ≤ f := by
          have : (dumpJson (JsonValue.obj members)).length =
              (dumpMembers members).length + 2 := by
            simp [dumpJson]
          omega
        rw [show dumpJson (JsonValue.obj members) ++ rest =
          0x7b :: (dumpMembers members ++ 0x7d :: rest) from by
            simp [dumpJson, List.append_assoc],
          parseValue_succ_cons f 0x7b _ (by decide), if_neg (by decide),
          if_neg (by decide), if_neg (by decide), if_neg (by decide),
          if_neg (by decide), if_pos rfl,
          skipWs_dumpMembers, ihM members rest hwfm hlenm]
        rfl
    · -- parseElems
      intro xs rest hwf hlen
      cases xs with
      | nil =>
        rw [show dumpElems [] ++ 0x5d :: rest = 0x5d :: rest from rfl,
          parseElems_succ f 0x5d rest, if_pos rfl]
      | cons x xs' =>
        obtain ⟨c, t, hhead, hws, h5d, _, _⟩ := dumpJson_head x
        simp only [wfElems, Bool.and_eq_true] at hwf
        have hsplit : (dumpElems (x :: xs')).length =
            (dumpJson x).length + (dumpElemsTail xs').length := by
          simp [dumpElems]
        have hx1 := dumpJson_length_pos x
        rw [show dumpElems (x :: xs') ++ 0x5d :: rest =
          dumpJson x ++ (dumpElemsTail xs' ++ 0x5d :: rest) from by
            simp [dumpElems, List.append_assoc],
          hhead, List.cons_append, parseElems_succ f c _, if_neg h5d,
          ← List.cons_append, ← hhead,
          ihP x _ hwf.1 (by omega) (boundary_dumpElemsTail xs' rest)]
        simp [skipWs_dumpElemsTail, ihT xs' rest hwf.2 (by omega)]
    · -- parseElemsTail
      intro xs rest hwf hlen
      cases xs with
      | nil =>
        rw [show dumpElemsTail [] ++ 0x5d :: rest = 0x5d :: rest from rfl,
          parseElemsTail_succ f 0x5d rest, if_pos rfl]
      | cons x xs' =>
        simp only [wfElems, Bool.and_eq_true] at hwf
        have hsplit : (dumpElemsTail (x :: xs')).length =
            (dumpJson x).length + (dumpElemsTail xs').length + 2 := by
          simp [dumpElemsTail, show (ascii ", ").length = 2 from rfl]
          omega
        have hx1 := dumpJson_length_pos x
        rw [show dumpElemsTail (x :: xs') ++ 0x5d :: rest =
          0x2c :: 0x20 :: (dumpJson x ++ (dumpElemsTail xs' ++ 0x5d :: rest)) from by
            simp [dumpElemsTail, List.append_assoc]
            rfl,
          parseElemsTail_succ f 0x2c _, if_neg (by decide), if_pos rfl,
          parseValue_ws f 0x20 _ (by decide),
          ihP x _ hwf.1 (by omega) (boundary_dumpElemsTail xs' rest)]
        simp [skipWs_dumpElemsTail, ihT xs' rest hwf.2 (by omega)]
    · -- parseMembers
      intro kvs rest hwf hlen
      cases kvs with
      | nil =>
        rw [show dumpMembers [] ++ 0x7d :: rest = 0x7d :: rest from rfl,
          parseMembers_succ f 0x7d rest, if_pos rfl]
      | cons kv kvs' =>
        obtain ⟨k, v⟩ := kv
        simp only [wfMembers, Bool.and_eq_true] at hwf
        obtain ⟨⟨hk, hv⟩, hkvs⟩ := hwf
        have hsplit : (dumpMembers ((k, v) :: kvs')).length =
            (escList k).length + (dumpJson v).length +
              (dumpMembersTail kvs').length + 4 := by
          simp [dumpMembers, dumpString, show (ascii ": ").length = 2 from rfl]
          omega
        have hx1 := dumpJson_length_pos v
        have hkl := escList_length_ge k
        rw [show dumpMembers ((k, v) :: kvs') ++ 0x7d :: rest =
          0x22 :: (escList k ++ 0x22 :: (0x3a :: 0x20 ::
            (dumpJson v ++ (dumpMembersTail kvs' ++ 0x7d :: rest)))) from by
            simp [dumpMembers, dumpString, List.append_assoc]
            rfl,
          parseMembers_succ f 0x22 _, if_neg (by decide), if_pos rfl,
          parseStringBody_escList k f _ hk (by omega)]
        simp [skipWs_cons, parseValue_ws, isWs,
          ihP v (dumpMembersTail kvs' ++ 0x7d :: rest) hv (by omega)
            (boundary_dumpMembersTail kvs' rest),
          skipWs_dumpMembersTail, ihMT kvs' rest hkvs (by omega)]
    · -- parseMembersTail
      intro kvs rest hwf hlen
      cases kvs with
      | nil =>
        rw [show dumpMembersTail [] ++ 0x7d :: rest = 0x7d :: rest from rfl,
          parseMembersTail_succ f 0x7d rest, if_pos rfl]
      | cons kv kvs' =>
        obtain ⟨k, v⟩ := kv
        simp only [wfMembers, Bool.and_eq_true] at hwf
        obtain ⟨⟨hk, hv⟩, hkvs⟩ := hwf
        have hsplit : (dumpMembersTail ((k, v) :: kvs')).length =
            (escList k).length + (dumpJson v).length +
              (dumpMembersTail kvs').length + 6 := by
          simp [dumpMembersTail, dumpString, show (ascii ", ").length = 2 from rfl,
            show (ascii ": ").length = 2 from rfl]
          omega
        have hx1 := dumpJson_length_pos v
        have hkl := escList_length_ge k
        rw [show dumpMembersTail ((k, v) :: kvs') ++ 0x7d :: rest =
          0x2c :: 0x20 :: 0x22 :: (escList k ++ 0x22 :: (0x3a :: 0x20 ::
            (dumpJson v ++ (dumpMembersTail kvs' ++ 0x7d :: rest)))) from by
            simp [dumpMembersTail, dumpString, List.append_assoc]
            rfl,
          parseMembersTail_succ f 0x2c _, if_neg (by decide), if_pos rfl,
          skipWs_ws_cons 0x20 _ (by decide), skipWs_cons 0x22 _ (by decide)]
        simp [parseStringBody_escList k f (0x3a :: 0x20 :: (dumpJson v ++
            (dumpMembersTail kvs' ++ 0x7d :: rest))) hk (by omega),
          skipWs_cons, parseValue_ws, isWs,
          ihP v (dumpMembersTail kvs' ++ 0x7d :: rest) hv (by omega)
            (boundary_dumpMembersTail kvs' rest),
          skipWs_dumpMembersTail, ihMT kvs' rest hkvs (by omega)]

/-- Whole-document round trip: `json.loads` of the `json.dump` output
of a well-formed document recovers it. -/
theorem jsonLoads_dumpJson (v : JsonValue) (h : wfJson v = true) :
    jsonLoads (dumpJson v) = some v := by
  unfold jsonLoads
  have hp := (parse_dump ((dumpJson v).length + 1)).1 v [] h (le_refl _) rfl
  rw [List.append_nil] at hp
  rw [hp]
  rfl

/-! ### Codec lemmas -/

theorem readBE32_packBE32 (n : Nat) (h : n < 0x100000000) :
    readBE32 (packBE32 n) = n := by
  simp only [readBE32, packBE32, List.foldl_cons, List.foldl_nil]
  omega

theorem call_ne_null (validator : Validator) (st : JsonSerializer)
    (ctx : SerializationContext) (obj : JsonValue) (h : obj ≠ JsonValue.null) :
    JsonSerializer.call validator st ctx obj =
      JsonSerializer.callBody validator st ctx obj := by
  cases obj <;> first | exact absurd rfl h | rfl

theorem callBody_state_trace (validator : Validator) (st : JsonSerializer)
    (ctx : SerializationContext) (obj : JsonValue) :
    (JsonSerializer.callBody validator st ctx obj).2 =
      registrationGate st (st._subject_name_func ctx st._schema_name) := by
  unfold JsonSerializer.callBody
  rcases hval : validator.validate (match st._to_dict with
      | some f => f ctx obj
      | Option.none => obj) st._parsed_schema with m | u <;>
    simp only [hval]
  rcases hid : (registrationGate st (st._subject_name_func ctx st._schema_name)).1._schema_id
      with _ | id <;> simp only [hid]
  by_cases hlt : id < 0x100000000
  · simp only [if_pos hlt]
  · simp only [if_neg hlt]

theorem gate_cached (st : JsonSerializer) (s : String)
    (h : st._known_subjects.contains s = true) :
    registrationGate st s = (st, []) := by
  have hm : s ∈ st._known_subjects := by simpa using h
  unfold registrationGate
  simp [hm]

theorem gate_uncached_trace (st : JsonSerializer) (s : String)
    (h : st._known_subjects.contains s = false) :
    (registrationGate st s).2 =
      (if st._auto_register then [RegistryCall.register s] else [RegistryCall.lookup s]) := by
  have hm : s ∉ st._known_subjects := by simpa using h
  unfold registrationGate
  cases hauto : st._auto_register <;> simp [hm, hauto]

theorem gate_uncached_id (st : JsonSerializer) (s : String)
    (h : st._known_subjects.contains s = false) :
    (registrationGate st s).1._schema_id =
      some (if st._auto_register then st._registry.register_schema s st._schema
        else (st._registry.lookup_schema s st._schema).schema_id) := by
  have hm : s ∉ st._known_subjects := by simpa using h
  unfold registrationGate
  cases hauto : st._auto_register <;> simp [hm, hauto]

theorem gate_mem (st : JsonSerializer) (s : String) :
    (registrationGate st s).1._known_subjects.contains s = true := by
  unfold registrationGate
  by_cases hm : s ∈ st._known_subjects
  · simp [hm]
  · cases hauto : st._auto_register <;> simp [hm, hauto]

theorem gate_preserves (st : JsonSerializer) (s : String) :
    (registrationGate st s).1._subject_name_func = st._subject_name_func ∧
    (registrationGate st s).1._schema_name = st._schema_name ∧
    (registrationGate st s).1._auto_register = st._auto_register ∧
    (registrationGate st s).1._registry = st._registry ∧
    (registrationGate st s).1._schema = st._schema ∧
    (registrationGate st s).1._to_dict = st._to_dict ∧
    (registrationGate st s).1._parsed_schema = st._parsed_schema := by
  unfold registrationGate
  split
  · exact ⟨rfl, rfl, rfl, rfl, rfl, rfl, rfl⟩
  · split
    · exact ⟨rfl, rfl, rfl, rfl, rfl, rfl, rfl⟩
    · exact ⟨rfl, rfl, rfl, rfl, rfl, rfl, rfl⟩

/-- Shape of a successful non-null serialization: the returned state
and trace are those of the registration gate, and the frame is the
magic byte, the packed cached id (which fits in 32 bits) and the JSON
text of the (possibly projected) value. -/
theorem call_ok_some (validator : Validator) (st : JsonSerializer)
    (ctx : SerializationContext) (obj : JsonValue) (bs : List Nat)
    (st' : JsonSerializer) (tr : List RegistryCall)
    (h : JsonSerializer.call validator st ctx obj = (.ok (some bs), st', tr)) :
    ∃ id,
      st'._schema_id = some id ∧ id < 0x100000000 ∧
      st' = (registrationGate st (st._subject_name_func ctx st._schema_name)).1 ∧
      tr = (registrationGate st (st._subject_name_func ctx st._schema_name)).2 ∧
      bs = _MAGIC_BYTE :: packBE32 id ++
        dumpJson (match st._to_dict with
          | some f => f ctx obj
          | Option.none => obj) := by
  have hnn : obj ≠ JsonValue.null := by
    intro hcon
    subst hcon
    simp [JsonSerializer.call] at h
  rw [call_ne_null validator st ctx obj hnn] at h
  unfold JsonSerializer.callBody at h
  rcases hval : validator.validate (match st._to_dict with
      | some f => f ctx obj
      | Option.none => obj) st._parsed_schema with m | u
  · simp only [hval] at h
    simp at h
  · simp only [hval] at h
    rcases hid : (registrationGate st (st._subject_name_func ctx st._schema_name)).1._schema_id
        with _ | id
    · simp only [hid] at h
      simp at h
    · simp only [hid] at h
      by_cases hlt : id < 0x100000000
      · rw [if_pos hlt] at h
        simp only [Prod.mk.injEq, Except.ok.injEq, Option.some.injEq] at h
        obtain ⟨hbs, hst, htr⟩ := h
        refine ⟨id, ?_, hlt, hst.symm, htr.symm, hbs.symm⟩
        rw [hst] at hid
        exact hid
      · rw [if_neg hlt] at h
        simp at h

/-- Unfolding of a deserializer call on a present (non-`None`) buffer. -/
theorem deserCall_some (d : JsonDeserializer) (ctx : SerializationContext)
    (bs : List Nat) :
    JsonDeserializer.call d ctx (some bs) =
      (if bs.length ≤ 5 then .error (.serializationError (.tooSmall bs))
       else
         if toSignedByte (bs.headD 0) ≠ ((_MAGIC_BYTE : Nat) : Int) then
           .error (.serializationError .badMagicByte)
         else
           match jsonLoads (bs.drop 5) with
           | Option.none => .error (.valueError .invalidJson)
           | some obj_dict =>
             match d._from_dict with
             | some f => .ok (f ctx obj_dict)
             | Option.none => .ok obj_dict) := rfl

/-! ### Claims -/

/-- C2 (code bug): serializing the null sentinel returns the null
sentinel immediately, with the state untouched and no registry call;
but deserializing the null sentinel does NOT return the null sentinel —
`len(value)` raises a `TypeError` on `None` — contrary to the claim's
decoder half. -/
theorem C2_null_propagation_divergence :
    JsonSerializer.call requiredValidator serState ctx0 JsonValue.null =
      (.ok Option.none, serState, []) ∧
    JsonDeserializer.call deserState ctx0 Option.none = .error PyErr.typeError :=
  ⟨rfl, rfl⟩

/-- C4: decoding any buffer of at most five bytes fails with the
frame-too-short error, before any magic-byte or JSON processing. -/
theorem C4_short_buffer_rejection (d : JsonDeserializer) (ctx : SerializationContext)
    (bs : List Nat) (h : bs.length ≤ 5) :
    JsonDeserializer.call d ctx (some bs) =
      .error (.serializationError (.tooSmall bs)) := by
  rw [deserCall_some, if_pos h]

theorem C4_witness :
    ([0, 0] : List Nat).length ≤ 5 ∧
    JsonDeserializer.call deserState ctx0 (some [0, 0]) =
      .error (.serializationError (.tooSmall [0, 0])) :=
  ⟨by decide, C4_short_buffer_rejection deserState ctx0 [0, 0] (by decide)⟩

/-- C5 counterexample: a buffer of exactly five bytes whose first byte
differs from the magic byte is rejected with the frame-too-short error,
not the bad-magic-byte error, refuting the claim's "at least 5 bytes"
bound at exactly five bytes. -/
theorem C5_counterexample :
    ([1, 0, 0, 0, 1] : List Nat).length ≥ 5 ∧
    ([1, 0, 0, 0, 1] : List Nat).headD 0 ≠ _MAGIC_BYTE ∧
    JsonDeserializer.call deserState ctx0 (some [1, 0, 0, 0, 1]) =
      .error (.serializationError (.tooSmall [1, 0, 0, 0, 1])) ∧
    JsonDeserializer.call deserState ctx0 (some [1, 0, 0, 0, 1]) ≠
      .error (.serializationError .badMagicByte) := by
  refine ⟨by decide, by decide, rfl, ?_⟩
  rw [show JsonDeserializer.call deserState ctx0 (some [1, 0, 0, 0, 1]) =
    .error (.serializationError (.tooSmall [1, 0, 0, 0, 1])) from rfl]
  intro hcon
  simp at hcon

/-- C5 (amended): decoding any buffer of MORE than five bytes whose
first byte is not the magic byte fails with the bad-magic-byte error,
whatever the remaining bytes hold. -/
theorem C5_bad_magic_rejection (d : JsonDeserializer) (ctx : SerializationContext)
    (bs : List Nat) (b : Nat) (hlen : 5 < bs.length) (hhead : bs.headD 0 = b)
    (hb : b < 0x100) (hbne : b ≠ _MAGIC_BYTE) :
    JsonDeserializer.call d ctx (some bs) =
      .error (.serializationError .badMagicByte) := by
  have hb0 : b ≠ 0 := by simpa [_MAGIC_BYTE] using hbne
  have hm : toSignedByte b ≠ ((_MAGIC_BYTE : Nat) : Int) := by
    unfold toSignedByte _MAGIC_BYTE
    split <;> omega
  rw [deserCall_some, if_neg (show ¬ bs.length ≤ 5 by omega)]
  simp only [hhead]
  rw [if_pos hm]

theorem C5_bad_magic_witness :
    5 < ([1, 0, 0, 0, 1, 0x7b, 0x7d] : List Nat).length ∧
    ([1, 0, 0, 0, 1, 0x7b, 0x7d] : List Nat).headD 0 = 1 ∧
    (1 : Nat) < 0x100 ∧ (1 : Nat) ≠ _MAGIC_BYTE ∧
    JsonDeserializer.call deserState ctx0 (some [1, 0, 0, 0, 1, 0x7b, 0x7d]) =
      .error (.serializationError .badMagicByte) :=
  ⟨by decide, rfl, by decide, by decide,
   C5_bad_magic_rejection deserState ctx0 [1, 0, 0, 0, 1, 0x7b, 0x7d] 1
     (by decide) rfl (by decide) (by decide)⟩

/-- C3: every successful encode produces a frame of at least five
bytes whose first byte is the magic byte and whose bytes 1..4, read as
a big-endian unsigned 32-bit integer, equal the serializer's cached
schema id obtained from the registry. -/
theorem C3_frame_validity (validator : Validator) (st : JsonSerializer)
    (ctx : SerializationContext) (obj : JsonValue) (bs : List Nat)
    (st' : JsonSerializer) (tr : List RegistryCall)
    (h : JsonSerializer.call validator st ctx obj = (.ok (some bs), st', tr)) :
    5 ≤ bs.length ∧ bs.headD 0 = _MAGIC_BYTE ∧
    ∃ id, st'._schema_id = some id ∧ readBE32 ((bs.drop 1).take 4) = id := by
  obtain ⟨id, hid, hlt, _, _, hbs⟩ := call_ok_some validator st ctx obj bs st' tr h
  subst hbs
  refine ⟨?_, rfl, id, hid, ?_⟩
  · simp [packBE32]
  · have hdt : ((_MAGIC_BYTE :: packBE32 id ++
        dumpJson (match st._to_dict with
          | some f => f ctx obj
          | Option.none => obj)).drop 1).take 4 = packBE32 id := by
      simp [packBE32]
    rw [hdt]
    exact readBE32_packBE32 id hlt

theorem C3_witness :
    JsonSerializer.call requiredValidator serState ctx0 adaVal =
      (.ok (some (_MAGIC_BYTE :: packBE32 1 ++ dumpJson adaVal)), serState1,
        [RegistryCall.register "topic-value"]) ∧
    (5 ≤ (_MAGIC_BYTE :: packBE32 1 ++ dumpJson adaVal).length ∧
     (_MAGIC_BYTE :: packBE32 1 ++ dumpJson adaVal).headD 0 = _MAGIC_BYTE ∧
     ∃ id, serState1._schema_id = some id ∧
       readBE32 (((_MAGIC_BYTE :: packBE32 1 ++ dumpJson adaVal).drop 1).take 4) = id) :=
  ⟨rfl, C3_frame_validity requiredValidator serState ctx0 adaVal _ serState1
    [RegistryCall.register "topic-value"] rfl⟩

/-- C1: with identity projection and materializer (neither configured),
decoding a successfully encoded frame of a well-formed value yields the
value again. -/
theorem C1_round_trip (validator : Validator) (st : JsonSerializer)
    (ctx dctx : SerializationContext) (v : JsonValue) (d : JsonDeserializer)
    (bs : List Nat) (st' : JsonSerializer) (tr : List RegistryCall)
    (hto : st._to_dict = Option.none) (hfrom : d._from_dict = Option.none)
    (hwf : wfJson v = true)
    (henc : JsonSerializer.call validator st ctx v = (.ok (some bs), st', tr)) :
    JsonDeserializer.call d dctx (some bs) = .ok v := by
  obtain ⟨id, hid, hlt, _, _, hbs⟩ := call_ok_some validator st ctx v bs st' tr henc
  simp only [hto] at hbs
  subst hbs
  rw [deserCall_some,
    if_neg (show ¬ (_MAGIC_BYTE :: packBE32 id ++ dumpJson v).length ≤ 5 from by
      have h1 : (_MAGIC_BYTE :: packBE32 id ++ dumpJson v).length =
          5 + (dumpJson v).length := by
        simp [packBE32]
        omega
      have h2 := dumpJson_length_pos v
      omega),
    if_neg (show ¬ (toSignedByte ((_MAGIC_BYTE :: packBE32 id ++
        dumpJson v).headD 0) ≠ ((_MAGIC_BYTE : Nat) : Int)) from by
      simp [toSignedByte, _MAGIC_BYTE]),
    show (_MAGIC_BYTE :: packBE32 id ++ dumpJson v).drop 5 = dumpJson v from by
      simp [packBE32],
    jsonLoads_dumpJson v hwf, hfrom]

theorem C1_witness :
    serState._to_dict = Option.none ∧ deserState._from_dict = Option.none ∧
    wfJson adaVal = true ∧
    JsonSerializer.call requiredValidator serState ctx0 adaVal =
      (.ok (some (_MAGIC_BYTE :: packBE32 1 ++ dumpJson adaVal)), serState1,
        [RegistryCall.register "topic-value"]) ∧
    JsonDeserializer.call deserState ctx0
      (some (_MAGIC_BYTE :: packBE32 1 ++ dumpJson adaVal)) = .ok adaVal :=
  ⟨rfl, rfl, rfl, rfl,
   C1_round_trip requiredValidator serState ctx0 ctx0 adaVal deserState _ serState1
     [RegistryCall.register "topic-value"] rfl rfl rfl rfl⟩

/-- C10: every successful encode of a non-null value yields a frame
strictly longer than the five-byte header, so a frame the encoder
produced is never rejected by the decoder's length check. -/
theorem C10_frames_exceed_header (validator : Validator) (st : JsonSerializer)
    (ctx dctx : SerializationContext) (obj : JsonValue) (bs : List Nat)
    (st' : JsonSerializer) (tr : List RegistryCall) (d : JsonDeserializer)
    (h : JsonSerializer.call validator st ctx obj = (.ok (some bs), st', tr)) :
    5 < bs.length ∧
    JsonDeserializer.call d dctx (some bs) ≠
      .error (.serializationError (.tooSmall bs)) := by
  obtain ⟨id, _, _, _, _, hbs⟩ := call_ok_some validator st ctx obj bs st' tr h
  subst hbs
  generalize (match st._to_dict with
      | some f => f ctx obj
      | Option.none => obj) = w
  have h1 : (_MAGIC_BYTE :: packBE32 id ++ dumpJson w).length =
      5 + (dumpJson w).length := by
    simp [packBE32]
    omega
  have h2 := dumpJson_length_pos w
  refine ⟨by omega, ?_⟩
  rw [deserCall_some, if_neg (by omega)]
  intro hcon
  split at hcon
  · simp at hcon
  · split at hcon
    · simp at hcon
    · split at hcon <;> simp at hcon

theorem C10_witness :
    JsonSerializer.call requiredValidator serState ctx0 adaVal =
      (.ok (some (_MAGIC_BYTE :: packBE32 1 ++ dumpJson adaVal)), serState1,
        [RegistryCall.register "topic-value"]) ∧
    5 < (_MAGIC_BYTE :: packBE32 1 ++ dumpJson adaVal).length ∧
    JsonDeserializer.call deserState ctx0
        (some (_MAGIC_BYTE :: packBE32 1 ++ dumpJson adaVal)) ≠
      .error (.serializationError (.tooSmall
        (_MAGIC_BYTE :: packBE32 1 ++ dumpJson adaVal))) :=
  ⟨rfl,
   C10_frames_exceed_header requiredValidator serState ctx0 ctx0 adaVal _ serState1
     [RegistryCall.register "topic-value"] deserState rfl⟩

/-- C7: a validation violation makes encode fail with a
`SerializationError` carrying the validator's message and no output
bytes; the resulting state and registry-call trace are exactly those of
the registration gate that ran before validation, so no registry work
happens beyond it. -/
theorem C7_validation_gate (validator : Validator) (st : JsonSerializer)
    (ctx : SerializationContext) (obj : JsonValue) (m : String)
    (hnull : obj ≠ JsonValue.null)
    (hval : validator.validate (match st._to_dict with
      | some f => f ctx obj
      | Option.none => obj) st._parsed_schema = .error m) :
    JsonSerializer.call validator st ctx obj =
      (.error (.serializationError (.validationMessage m)),
       (registrationGate st (st._subject_name_func ctx st._schema_name)).1,
       (registrationGate st (st._subject_name_func ctx st._schema_name)).2) := by
  rw [call_ne_null validator st ctx obj hnull]
  unfold JsonSerializer.callBody
  simp only [hval]

theorem C7_witness :
    (JsonValue.obj [] ≠ JsonValue.null) ∧
    requiredValidator.validate (match serState._to_dict with
      | some f => f ctx0 (JsonValue.obj [])
      | Option.none => JsonValue.obj []) serState._parsed_schema =
      .error "required property is missing" ∧
    JsonSerializer.call requiredValidator serState ctx0 (JsonValue.obj []) =
      (.error (.serializationError (.validationMessage "required property is missing")),
       (registrationGate serState
         (serState._subject_name_func ctx0 serState._schema_name)).1,
       (registrationGate serState
         (serState._subject_name_func ctx0 serState._schema_name)).2) :=
  ⟨fun h => JsonValue.noConfusion h, rfl,
   C7_validation_gate requiredValidator serState ctx0 (JsonValue.obj [])
     "required property is missing" (fun h => JsonValue.noConfusion h) rfl⟩

/-- C9: the serializer keeps one cached schema id, not a per-subject
map.  For an uncached subject, the state after the call holds exactly
the id returned by the registry call just made (register or lookup
according to the mode).  For a cached subject, the call leaves the
instance unchanged and performs no registry call, and a successful
encode frames the single previously cached id — whatever subject it
was obtained for. -/
theorem C9_single_cached_id (validator : Validator) (st : JsonSerializer)
    (ctx : SerializationContext) (obj : JsonValue) (hnull : obj ≠ JsonValue.null) :
    (st._known_subjects.contains (st._subject_name_func ctx st._schema_name) = false →
      (JsonSerializer.call validator st ctx obj).2.1._schema_id =
        some (if st._auto_register
          then st._registry.register_schema
            (st._subject_name_func ctx st._schema_name) st._schema
          else (st._registry.lookup_schema
            (st._subject_name_func ctx st._schema_name) st._schema).schema_id)) ∧
    (st._known_subjects.contains (st._subject_name_func ctx st._schema_name) = true →
      (JsonSerializer.call validator st ctx obj).2 = (st, []) ∧
      ∀ bs st' tr, JsonSerializer.call validator st ctx obj = (.ok (some bs), st', tr) →
        ∃ id, st._schema_id = some id ∧ readBE32 ((bs.drop 1).take 4) = id) := by
  have h2 : (JsonSerializer.call validator st ctx obj).2 =
      registrationGate st (st._subject_name_func ctx st._schema_name) := by
    rw [call_ne_null validator st ctx obj hnull]
    exact callBody_state_trace validator st ctx obj
  constructor
  · intro hc
    rw [show (JsonSerializer.call validator st ctx obj).2.1 =
      (registrationGate st (st._subject_name_func ctx st._schema_name)).1 from
      congrArg Prod.fst h2]
    exact gate_uncached_id st _ hc
  · intro hc
    have hgate := gate_cached st _ hc
    constructor
    · rw [h2, hgate]
    · intro bs st' tr h
      obtain ⟨id, hid, hlt, hst, _, hbs⟩ := call_ok_some validator st ctx obj bs st' tr h
      rw [hgate] at hst
      refine ⟨id, ?_, ?_⟩
      · rw [show st = st' from hst.symm ▸ rfl]
        exact hid
      · subst hbs
        have hdt : ((_MAGIC_BYTE :: packBE32 id ++
            dumpJson (match st._to_dict with
              | some f => f ctx obj
              | Option.none => obj)).drop 1).take 4 = packBE32 id := by
          simp [packBE32]
        rw [hdt]
        exact readBE32_packBE32 id hlt

theorem C9_witness :
    (adaVal ≠ JsonValue.null) ∧
    serState1._known_subjects.contains
      (serState1._subject_name_func ctx0 serState1._schema_name) = true ∧
    (JsonSerializer.call requiredValidator serState1 ctx0 adaVal).2 = (serState1, []) ∧
    (∃ id, serState1._schema_id = some id ∧
      readBE32 (((_MAGIC_BYTE :: packBE32 1 ++ dumpJson adaVal).drop 1).take 4) = id) := by
  have hnn : adaVal ≠ JsonValue.null := fun h => JsonValue.noConfusion h
  have h := (C9_single_cached_id requiredValidator serState1 ctx0 adaVal hnn).2 rfl
  exact ⟨hnn, rfl, h.1, h.2 (_MAGIC_BYTE :: packBE32 1 ++ dumpJson adaVal) serState1 [] rfl⟩

/-- When every input resolves to an already-cached subject, a call
sequence performs no registry call at all (null inputs short-circuit,
cached subjects skip the gate). -/
theorem runCalls_cached_trace (validator : Validator)
    (inputs : List (SerializationContext × JsonValue)) :
    ∀ (st : JsonSerializer) (s : String),
      (∀ p ∈ inputs, st._subject_name_func p.1 st._schema_name = s) →
      st._known_subjects.contains s = true →
      (runCalls validator st inputs).2 = [] := by
  induction inputs with
  | nil => intro st s _ _; rfl
  | cons p rest ih =>
    intro st s hres hc
    obtain ⟨ctx, obj⟩ := p
    have hsub := hres (ctx, obj) (List.mem_cons_self _ _)
    have hrest := fun q hq => hres q (List.mem_cons_of_mem _ hq)
    by_cases hn : obj = JsonValue.null
    · subst hn
      have hcall : JsonSerializer.call validator st ctx JsonValue.null =
          (.ok Option.none, st, []) := rfl
      simp only [runCalls, hcall]
      simpa using ih st s hrest hc
    · have h2 : (JsonSerializer.call validator st ctx obj).2 = (st, []) := by
        rw [call_ne_null validator st ctx obj hn, callBody_state_trace, hsub]
        exact gate_cached st s hc
      have e1 : (JsonSerializer.call validator st ctx obj).2.1 = st :=
        congrArg Prod.fst h2
      have e2 : (JsonSerializer.call validator st ctx obj).2.2 = [] :=
        congrArg Prod.snd h2
      simp only [runCalls, e1, e2, List.nil_append]
      exact ih st s hrest hc

/-- C6: across any number of encode calls on one serializer instance
whose contexts all resolve to the same subject, at most one registry
call is made. -/
theorem C6_cache_idempotence (validator : Validator)
    (inputs : List (SerializationContext × JsonValue)) :
    ∀ (st : JsonSerializer) (s : String),
      (∀ p ∈ inputs, st._subject_name_func p.1 st._schema_name = s) →
      (runCalls validator st inputs).2.length ≤ 1 := by
  induction inputs with
  | nil => intro st s _; simp [runCalls]
  | cons p rest ih =>
    intro st s hres
    obtain ⟨ctx, obj⟩ := p
    have hsub := hres (ctx, obj) (List.mem_cons_self _ _)
    have hrest := fun q hq => hres q (List.mem_cons_of_mem _ hq)
    by_cases hn : obj = JsonValue.null
    · subst hn
      have hcall : JsonSerializer.call validator st ctx JsonValue.null =
          (.ok Option.none, st, []) := rfl
      simp only [runCalls, hcall]
      simpa using ih st s hrest
    · have h2 : (JsonSerializer.call validator st ctx obj).2 =
          registrationGate st s := by
        rw [call_ne_null validator st ctx obj hn, callBody_state_trace, hsub]
      have e1 : (JsonSerializer.call validator st ctx obj).2.1 =
          (registrationGate st s).1 := congrArg Prod.fst h2
      have e2 : (JsonSerializer.call validator st ctx obj).2.2 =
          (registrationGate st s).2 := congrArg Prod.snd h2
      by_cases hc : st._known_subjects.contains s = true
      · have hgate := gate_cached st s hc
        simp only [runCalls, e1, e2, hgate, List.nil_append]
        simpa using ih st s hrest
      · have hcf : st._known_subjects.contains s = false := by
          cases hb : st._known_subjects.contains s
          · rfl
          · exact absurd hb hc
        have htr1 : (registrationGate st s).2.length = 1 := by
          rw [gate_uncached_trace st s hcf]
          cases st._auto_register <;> rfl
        have hpres := gate_preserves st s
        have hresr : ∀ q ∈ rest, (registrationGate st s).1._subject_name_func q.1
            (registrationGate st s).1._schema_name = s := by
          intro q hq
          rw [hpres.1, hpres.2.1]
          exact hrest q hq
        have hr0 := runCalls_cached_trace validator rest
          (registrationGate st s).1 s hresr (gate_mem st s)
        simp only [runCalls, e1, e2, List.length_append, hr0, htr1, List.length_nil]
        omega

theorem C6_witness :
    (∀ p ∈ [(ctx0, adaVal), (ctx0, adaVal)],
      serState._subject_name_func p.1 serState._schema_name = "topic-value") ∧
    (runCalls requiredValidator serState [(ctx0, adaVal), (ctx0, adaVal)]).2.length ≤ 1 := by
  have hres : ∀ p ∈ [(ctx0, adaVal), (ctx0, adaVal)],
      serState._subject_name_func p.1 serState._schema_name = "topic-value" := by
    intro p hp
    rcases List.mem_cons.mp hp with rfl | hp2
    · rfl
    · rcases List.mem_cons.mp hp2 with rfl | hp3
      · rfl
      · exact absurd hp3 (List.not_mem_nil p)
  exact ⟨hres, C6_cache_idempotence requiredValidator _ serState "topic-value" hres⟩

theorem init_ne_notCallable (client : SchemaRegistryClient) (schema_str : List Nat)
    (td : ToDictArg) (conf : Option (List (String × ConfVal)))
    (h : td ≠ ToDictArg.notCallable) :
    JsonSerializer.init client schema_str td conf =
      JsonSerializer.initConf client schema_str td conf := by
  cases td <;> first | exact absurd rfl h | rfl

theorem initConf_error_iff (client : SchemaRegistryClient) (schema_str : List Nat)
    (td : ToDictArg) (conf : Option (List (String × ConfVal))) (sd : JsonValue)
    (hparse : jsonLoads schema_str = some sd) :
    (∃ e, JsonSerializer.initConf client schema_str td conf = .error e) ↔
      ((confLookup conf "auto.register.schemas" (ConfVal.boolVal true)).isBool = false ∨
       (confLookup conf "subject.name.strategy"
         (ConfVal.funcVal topic_subject_name_strategy)).isCallable = false ∨
       unrecognizedKeys conf ≠ [] ∨
       schemaTitle sd = Option.none) := by
  unfold JsonSerializer.initConf
  rcases h1 : confLookup conf "auto.register.schemas" (ConfVal.boolVal true)
    with b | g1 | _
  · rcases h2 : confLookup conf "subject.name.strategy"
        (ConfVal.funcVal topic_subject_name_strategy) with b2 | fstrat | _
    · simp only [h1, h2]
      exact ⟨fun _ => Or.inr (Or.inl rfl), fun _ => ⟨_, rfl⟩⟩
    · simp only [h1, h2]
      cases hk : unrecognizedKeys conf with
      | cons k ks =>
        refine ⟨fun _ => Or.inr (Or.inr (Or.inl (by simp))), fun _ => ⟨_, rfl⟩⟩
      | nil =>
        rw [hparse]
        cases sd with
        | obj kvs =>
          cases hT : dictGet kvs (ascii "title") with
          | null =>
            simp only [hT]
            refine ⟨fun _ => Or.inr (Or.inr (Or.inr ?_)), fun _ => ⟨_, rfl⟩⟩
            simp [schemaTitle, hT]
          | bool bb =>
            simp only [hT]
            constructor
            · rintro ⟨e, he⟩
              exact absurd he (by simp)
            · rintro (h | h | h | h)
              · exact absurd h (by simp [ConfVal.isBool])
              · exact absurd h (by simp [ConfVal.isCallable])
              · exact absurd rfl h
              · rw [show schemaTitle (JsonValue.obj kvs) = some (JsonValue.bool bb)
                  from by simp [schemaTitle, hT]] at h
                exact absurd h (by simp)
          | int nn =>
            simp only [hT]
            constructor
            · rintro ⟨e, he⟩
              exact absurd he (by simp)
            · rintro (h | h | h | h)
              · exact absurd h (by simp [ConfVal.isBool])
              · exact absurd h (by simp [ConfVal.isCallable])
              · exact absurd rfl h
              · rw [show schemaTitle (JsonValue.obj kvs) = some (JsonValue.int nn)
                  from by simp [schemaTitle, hT]] at h
                exact absurd h (by simp)
          | str ss =>
            simp only [hT]
            constructor
            · rintro ⟨e, he⟩
              exact absurd he (by simp)
            · rintro (h | h | h | h)
              · exact absurd h (by simp [ConfVal.isBool])
              · exact absurd h (by simp [ConfVal.isCallable])
              · exact absurd rfl h
              · rw [show schemaTitle (JsonValue.obj kvs) = some (JsonValue.str ss)
                  from by simp [schemaTitle, hT]] at h
                exact absurd h (by simp)
          | arr aa =>
            simp only [hT]
            constructor
            · rintro ⟨e, he⟩
              exact absurd he (by simp)
            · rintro (h | h | h | h)
              · exact absurd h (by simp [ConfVal.isBool])
              · exact absurd h (by simp [ConfVal.isCallable])
              · exact absurd rfl h
              · rw [show schemaTitle (JsonValue.obj kvs) = some (JsonValue.arr aa)
                  from by simp [schemaTitle, hT]] at h
                exact absurd h (by simp)
          | obj oo =>
            simp only [hT]
            constructor
            · rintro ⟨e, he⟩
              exact absurd he (by simp)
            · rintro (h | h | h | h)
              · exact absurd h (by simp [ConfVal.isBool])
              · exact absurd h (by simp [ConfVal.isCallable])
              · exact absurd rfl h
              · rw [show schemaTitle (JsonValue.obj kvs) = some (JsonValue.obj oo)
                  from by simp [schemaTitle, hT]] at h
                exact absurd h (by simp)
        | null => exact ⟨fun _ => Or.inr (Or.inr (Or.inr rfl)), fun _ => ⟨_, rfl⟩⟩
        | bool bb => exact ⟨fun _ => Or.inr (Or.inr (Or.inr rfl)), fun _ => ⟨_, rfl⟩⟩
        | int nn => exact ⟨fun _ => Or.inr (Or.inr (Or.inr rfl)), fun _ => ⟨_, rfl⟩⟩
        | str ss => exact ⟨fun _ => Or.inr (Or.inr (Or.inr rfl)), fun _ => ⟨_, rfl⟩⟩
        | arr aa => exact ⟨fun _ => Or.inr (Or.inr (Or.inr rfl)), fun _ => ⟨_, rfl⟩⟩
    · simp only [h1, h2]
      exact ⟨fun _ => Or.inr (Or.inl rfl), fun _ => ⟨_, rfl⟩⟩
  · simp only [h1]
    exact ⟨fun _ => Or.inl rfl, fun _ => ⟨_, rfl⟩⟩
  · simp only [h1]
    exact ⟨fun _ => Or.inl rfl, fun _ => ⟨_, rfl⟩⟩

theorem initConf_default_ok (client : SchemaRegistryClient) (schema_str : List Nat)
    (td : ToDictArg) (sd : JsonValue) (hparse : jsonLoads schema_str = some sd)
    (htitle : schemaTitle sd ≠ Option.none) :
    ∃ st, JsonSerializer.initConf client schema_str td Option.none = .ok st ∧
      st._auto_register = true ∧
      st._subject_name_func = topic_subject_name_strategy := by
  unfold JsonSerializer.initConf
  rw [show confLookup Option.none "auto.register.schemas" (ConfVal.boolVal true) =
    ConfVal.boolVal true from rfl]
  rw [show confLookup Option.none "subject.name.strategy"
    (ConfVal.funcVal topic_subject_name_strategy) =
    ConfVal.funcVal topic_subject_name_strategy from rfl]
  rw [show unrecognizedKeys Option.none = [] from rfl]
  rw [hparse]
  simp only []
  cases sd with
  | obj kvs =>
    simp only []
    cases hT : dictGet kvs (ascii "title") with
    | null => exact absurd (by simp [schemaTitle, hT]) htitle
    | bool bb => exact ⟨_, rfl, rfl, rfl⟩
    | int nn => exact ⟨_, rfl, rfl, rfl⟩
    | str ss => exact ⟨_, rfl, rfl, rfl⟩
    | arr aa => exact ⟨_, rfl, rfl, rfl⟩
    | obj oo => exact ⟨_, rfl, rfl, rfl⟩
  | null => exact absurd rfl htitle
  | bool bb => exact absurd rfl htitle
  | int nn => exact absurd rfl htitle
  | str ss => exact absurd rfl htitle
  | arr aa => exact absurd rfl htitle

/-- C8: construction fails exactly when `to_dict` is supplied but not
callable, the (merged) auto-register flag is not a boolean, the
(merged) subject name strategy is not callable, the configuration holds
an unrecognized key, or the parsed schema lacks a `title` annotation;
and with no configuration supplied (and none of those failures)
construction succeeds with auto-registration enabled and the
topic-based subject name strategy. -/
theorem C8_construction (client : SchemaRegistryClient) (schema_str : List Nat)
    (to_dict : ToDictArg) (conf : Option (List (String × ConfVal))) (sd : JsonValue)
    (hparse : jsonLoads schema_str = some sd) :
    ((∃ e, JsonSerializer.init client schema_str to_dict conf = .error e) ↔
      (to_dict = ToDictArg.notCallable ∨
       (confLookup conf "auto.register.schemas" (ConfVal.boolVal true)).isBool = false ∨
       (confLookup conf "subject.name.strategy"
         (ConfVal.funcVal topic_subject_name_strategy)).isCallable = false ∨
       unrecognizedKeys conf ≠ [] ∨
       schemaTitle sd = Option.none)) ∧
    (conf = Option.none → to_dict ≠ ToDictArg.notCallable →
      schemaTitle sd ≠ Option.none →
      ∃ st, JsonSerializer.init client schema_str to_dict conf = .ok st ∧
        st._auto_register = true ∧
        st._subject_name_func = topic_subject_name_strategy) := by
  constructor
  · cases to_dict with
    | notCallable =>
      exact ⟨fun _ => Or.inl rfl, fun _ => ⟨.valueError .toDictNotCallable, rfl⟩⟩
    | none =>
      rw [init_ne_notCallable client schema_str ToDictArg.none conf
        (fun h => ToDictArg.noConfusion h)]
      constructor
      · intro he
        exact Or.inr ((initConf_error_iff client schema_str ToDictArg.none conf sd
          hparse).mp he)
      · rintro (h | h)
        · exact absurd h (fun hcon => ToDictArg.noConfusion hcon)
        · exact (initConf_error_iff client schema_str ToDictArg.none conf sd
            hparse).mpr h
    | callable f =>
      rw [init_ne_notCallable client schema_str (ToDictArg.callable f) conf
        (fun h => ToDictArg.noConfusion h)]
      constructor
      · intro he
        exact Or.inr ((initConf_error_iff client schema_str (ToDictArg.callable f)
          conf sd hparse).mp he)
      · rintro (h | h)
        · exact absurd h (fun hcon => ToDictArg.noConfusion hcon)
        · exact (initConf_error_iff client schema_str (ToDictArg.callable f)
            conf sd hparse).mpr h
  · intro hconf htd htitle
    subst hconf
    rw [init_ne_notCallable client schema_str to_dict Option.none htd]
    exact initConf_default_ok client schema_str to_dict sd hparse htitle

theorem C8_witness :
    jsonLoads userSchemaStr = some userSchema ∧
    ¬ (∃ e, JsonSerializer.init oneRegistry userSchemaStr ToDictArg.none Option.none =
        .error e) ∧
    (∃ st, JsonSerializer.init oneRegistry userSchemaStr ToDictArg.none Option.none =
        .ok st ∧ st._auto_register = true ∧
        st._subject_name_func = topic_subject_name_strategy) ∧
    (∃ e, JsonSerializer.init oneRegistry userSchemaStr ToDictArg.notCallable
        Option.none = .error e) := by
  have hparse : jsonLoads userSchemaStr = some userSchema := rfl
  have h1 := C8_construction oneRegistry userSchemaStr ToDictArg.none Option.none
    userSchema hparse
  have h2 := C8_construction oneRegistry userSchemaStr ToDictArg.notCallable
    Option.none userSchema hparse
  refine ⟨hparse, ?_, ?_, ?_⟩
  · intro he
    rcases h1.1.mp he with h | h | h | h | h
    · exact ToDictArg.noConfusion h
    · exact absurd h (by simp [confLookup, ConfVal.isBool])
    · exact absurd h (by simp [confLookup, ConfVal.isCallable])
    · exact h rfl
    · rw [show schemaTitle userSchema = some (JsonValue.str (ascii "User"))
        from rfl] at h
      exact Option.noConfusion h
  · exact h1.2 rfl (fun h => ToDictArg.noConfusion h)
      (by rw [show schemaTitle userSchema = some (JsonValue.str (ascii "User"))
        from rfl]; exact fun h => Option.noConfusion h)
  · exact h2.1.mpr (Or.inl rfl)
